import Mathlib

/-!
Verification of the DSC configuration orchestration core
(src/dsc_lib/src/configure/mod.rs) against its natural-language
specification.

The Rust code is shallowly embedded: serde_json values become the
inductive `JValue`; serde maps (`serde_json::Map`) and the hash maps of
the context become association lists; the externally supplied expression
engine, discovery facility, invocation-order function and JSON
serialization are parameters of the orchestrator functions; `&mut self`
state is made explicit by passing and returning the context.
-/

namespace DSCv3

/-- JSON-shaped values (serde_json::Value): null, bool, integer, string,
sequence, mapping. -/
inductive JValue where
  | null
  | bool (b : Bool)
  | num (n : Int)
  | str (s : String)
  | arr (elems : List JValue)
  | obj (fields : List (String × JValue))

/-- Errors surfaced by the core (dsc_lib::dscerror::DscError variants used
in configure/mod.rs). `Json` stands for serde_json conversion errors. -/
inductive DscError where
  | Parser (msg : String)
  | Validation (msg : String)
  | ResourceNotFound (resource_type : String)
  | Json (msg : String)
deriving DecidableEq, Repr

/-- Models Rust `String::starts_with('[') && String::ends_with(']')`, the
test both walkers apply to string values. -/
def bracketed (s : String) : Bool :=
  s.data.head? == some '[' && s.data.getLast? == some ']'

/-- Models Rust `str::to_lowercase`: each character mapped to lower case. -/
def strToLower (s : String) : String := ⟨s.data.map Char.toLower⟩

/-- Models `serde_json::Value::as_str`: `Some` exactly on JSON strings. -/
def asStr : JValue → Option String
  | .str s => some s
  | _ => none

/-- Models `serde_json::to_value` applied to an `Option<Map<String,Value>>`:
`Some m` becomes an object, `None` becomes JSON null. -/
def optionMapToValue : Option (List (String × JValue)) → JValue
  | some m => .obj m
  | none => .null

/-- Models `serde_json::from_value::<Map<String, Value>>`: succeeds exactly
on objects. -/
def fromValueObject : JValue → Except DscError (List (String × JValue))
  | .obj fields => .ok fields
  | _ => .error (.Json "invalid type: value is not an object")

mutual

/-- Entry loop of `escape_property_values` (configure/mod.rs lines 75-131):
walks the `(name, value)` entries of a property map in escape mode,
inserting each transformed value under its name. -/
def escapeEntries : List (String × JValue) → Except DscError (List (String × JValue))
  | [] => .ok []
  | (name, value) :: rest => do
    let v ← escapeMapValue value
    .ok ((name, v) :: (← escapeEntries rest))

/-- The per-entry `match value` of `escape_property_values` (mod.rs lines
78-128): objects recurse (their recursive result re-wrapped by
`serde_json::to_value`), arrays go through the element loop, strings get
the escape rule behind the `as_str` guard, other scalars are cloned. -/
def escapeMapValue : JValue → Except DscError JValue
  | .obj object => do
    let v ← escapeEntries object
    .ok (optionMapToValue (some v))
  | .arr array => do .ok (.arr (← escapeArrayElems array))
  | .str s =>
    match asStr (.str s) with
    | none =>
      .error (.Parser ("Property value \x27" ++ s ++ "\x27 could not be transformed as string"))
    | some statement =>
      if bracketed statement then .ok (.str ("[" ++ statement))
      else .ok (.str s)
  | value => .ok value

/-- Array-element loop of `escape_property_values` (mod.rs lines 84-111):
object elements recurse, a directly nested array is a parse error, string
elements get the escape rule, other scalars pass through. -/
def escapeArrayElems : List JValue → Except DscError (List JValue)
  | [] => .ok []
  | .obj object :: rest => do
    let v ← escapeEntries object
    .ok (optionMapToValue (some v) :: (← escapeArrayElems rest))
  | .arr _ :: _ => .error (.Parser "Nested arrays not supported")
  | .str s :: rest =>
    match asStr (.str s) with
    | none => .error (.Parser "Array element could not be transformed as string")
    | some statement => do
      if bracketed statement then
        .ok (.str ("[" ++ statement) :: (← escapeArrayElems rest))
      else
        .ok (.str s :: (← escapeArrayElems rest))
  | element :: rest => do .ok (element :: (← escapeArrayElems rest))

end

/-- `escape_property_values` (mod.rs lines 75-131): escape-mode property
walker; always wraps a successful result map in `Some`. -/
def escape_property_values (properties : List (String × JValue)) :
    Except DscError (Option (List (String × JValue))) := do
  .ok (some (← escapeEntries properties))

mutual

/-- Entry loop of `invoke_property_expressions` (mod.rs lines 402-458) in
evaluate mode; `engine` is `Statement::parse_and_execute` with the current
context already applied. -/
def invokeEntries (engine : String → Except DscError String) :
    List (String × JValue) → Except DscError (List (String × JValue))
  | [] => .ok []
  | (name, value) :: rest => do
    let v ← invokeMapValue engine value
    .ok ((name, v) :: (← invokeEntries engine rest))

/-- The per-entry `match value` of `invoke_property_expressions` (mod.rs
lines 410-454): objects recurse, arrays go through the element loop, every
string is handed to the engine behind the `as_str` guard, other scalars
are cloned. -/
def invokeMapValue (engine : String → Except DscError String) :
    JValue → Except DscError JValue
  | .obj object => do
    let v ← invokeEntries engine object
    .ok (optionMapToValue (some v))
  | .arr array => do .ok (.arr (← invokeArrayElems engine array))
  | .str s =>
    match asStr (.str s) with
    | none =>
      .error (.Parser ("Property value \x27" ++ s ++ "\x27 could not be transformed as string"))
    | some statement => do
      let statement_result ← engine statement
      .ok (.str statement_result)
  | value => .ok value

/-- Array-element loop of `invoke_property_expressions` (mod.rs lines
416-442). Every string element is handed to the engine. -/
def invokeArrayElems (engine : String → Except DscError String) :
    List JValue → Except DscError (List JValue)
  | [] => .ok []
  | .obj object :: rest => do
    let v ← invokeEntries engine object
    .ok (optionMapToValue (some v) :: (← invokeArrayElems engine rest))
  | .arr _ :: _ => .error (.Parser "Nested arrays not supported")
  | .str s :: rest =>
    match asStr (.str s) with
    | none => .error (.Parser "Array element could not be transformed as string")
    | some statement => do
      let statement_result ← engine statement
      .ok (.str statement_result :: (← invokeArrayElems engine rest))
  | element :: rest => do .ok (element :: (← invokeArrayElems engine rest))

end

/-- `invoke_property_expressions` (mod.rs lines 402-458): evaluate-mode
property walker over an optional property map. -/
def invoke_property_expressions (engine : String → Except DscError String)
    (properties : Option (List (String × JValue))) :
    Except DscError (Option (List (String × JValue))) :=
  match properties with
  | none => .ok none
  | some properties => do .ok (some (← invokeEntries engine properties))

/-- Modelled from the spec: the expression engine entry point
(`Statement::parse_and_execute` of the parser crate, whose source is not
under src/). Per the spec, only strings wholly enclosed in `[ ]` are
expressions; the engine evaluates those (abstracted here as `evalExpr`) and
returns any other string unchanged. -/
def specParseAndExecute (evalExpr : String → Except DscError String)
    (statement : String) : Except DscError String :=
  if bracketed statement then evalExpr statement else .ok statement

/-- The evaluation context (configure/context.rs, not under src/).
Modelled from the spec: a mapping from parameter name to resolved value
and a mapping from resource name to that resource's most recent operation
result. -/
structure Context where
  parameters : List (String × JValue)
  resources : List (String × JValue)

/-- Parameter data types (config_doc::DataType, declaration not under
src/; the variants are those matched in mod.rs lines 333-359). -/
inductive DataType where
  | string
  | secureString
  | int
  | bool
  | array
  | object
  | secureObject
deriving DecidableEq, Repr

/-- A parameter declaration (config_doc::ParameterDeclaration, not under
src/). Modelled from the spec: a type, an optional literal default and
optional constraints. -/
structure ParameterDecl where
  parameter_type : DataType
  default_value : Option JValue := none
  min_length : Option Int := none
  max_length : Option Int := none
  min_value : Option Int := none
  max_value : Option Int := none
  allowed_values : Option (List JValue) := none

/-- A resource declaration (config_doc::Resource, not under src/).
Modelled from the spec: name, type, optional property bag, optional
dependency list. -/
structure Resource where
  name : String
  resource_type : String
  properties : Option (List (String × JValue)) := none
  depends_on : Option (List String) := none

/-- The root configuration document (config_doc::Configuration, not under
src/). Modelled from the spec: optional parameter declarations and an
ordered resource sequence. -/
structure Configuration where
  parameters : Option (List (String × ParameterDecl)) := none
  resources : List Resource := []

/-- Provider export payload: `{ actual_state: [ ... ] }`. -/
structure ExportResult where
  actual_state : List JValue

/-- A discovered resource provider (the `Invoke` capability consumed by
the orchestrator): its type name and the four provider operations, each a
function from the serialized JSON input to an opaque payload. -/
structure DscResourceModel where
  type_name : String
  getFn : String → Except DscError JValue
  setFn : String → Bool → Except DscError JValue
  testFn : String → Except DscError JValue
  exportFn : String → Except DscError ExportResult

/-- Per-resource get result record (config_result::ResourceGetResult). -/
structure ResourceGetResult where
  name : String
  resource_type : String
  result : JValue

/-- Per-resource set result record (config_result::ResourceSetResult). -/
structure ResourceSetResult where
  name : String
  resource_type : String
  result : JValue

/-- Per-resource test result record (config_result::ResourceTestResult). -/
structure ResourceTestResult where
  name : String
  resource_type : String
  result : JValue

/-- Aggregate export result (config_result::ConfigurationExportResult). -/
structure ConfigurationExportResult where
  result : Option Configuration

/-- Index loop of `add_resource_export_results_to_configuration` (mod.rs
lines 60-68): `for (i, instance) in actual_state.iter().enumerate()`. -/
def addExportLoop (type_name : String) :
    List JValue → Nat → Configuration → Except DscError Configuration
  | [], _, conf => .ok conf
  | inst :: rest, i, conf => do
    let props ← fromValueObject inst
    let properties ← escape_property_values props
    let r : Resource :=
      { name := type_name ++ "-" ++ toString i
        resource_type := type_name
        properties := properties
        depends_on := none }
    addExportLoop type_name rest (i + 1) { conf with resources := conf.resources ++ [r] }

/-- `add_resource_export_results_to_configuration` (mod.rs lines 53-71):
invoke the provider export (preferring `provider_resource`), then append
one synthesized resource per returned instance. -/
def add_resource_export_results_to_configuration (resource : DscResourceModel)
    (provider_resource : Option DscResourceModel) (conf : Configuration)
    (input : String) : Except DscError Configuration := do
  let export_result ←
    match provider_resource with
    | some p => p.exportFn input
    | none => resource.exportFn input
  addExportLoop resource.type_name export_result.actual_state 0 conf

/-- Models `HashMap::entry(key).or_insert(0)` followed by `*v += 1` on an
association list: returns the updated map and the incremented count. -/
def bumpEntry : List (String × Nat) → String → List (String × Nat) × Nat
  | [], t => ([(t, 1)], 1)
  | (k, c) :: rest, t =>
    if k == t then ((k, c + 1) :: rest, c + 1)
    else
      let (m, v) := bumpEntry rest t
      ((k, c) :: m, v)

/-- Models `HashSet::insert` on a duplicate-free list. -/
def setInsert (s : List String) (t : String) : List String :=
  if s.contains t then s else s ++ [t]

/-- Counting loop of `find_duplicate_resource_types` (mod.rs lines
379-386). -/
def dupLoop : List Resource → List (String × Nat) → List String → List String
  | [], _, result => result
  | r :: rest, map, result =>
    let (map', v) := bumpEntry map r.resource_type
    if v > 1 then dupLoop rest map' (setInsert result r.resource_type)
    else dupLoop rest map' result

/-- `find_duplicate_resource_types` (mod.rs lines 370-389): the distinct
resource types that occur more than once. HashSet iteration order is
modelled as first-duplicate-occurrence order. -/
def find_duplicate_resource_types (config : Configuration) : List String :=
  if config.resources.isEmpty then []
  else dupLoop config.resources [] []

/-- Loop body of `invoke_get` (mod.rs lines 166-180): evaluate properties,
look up the provider, invoke `get`, record `(name, type, result)`. The
context is never written in the loop. -/
def invokeGetLoop (find_resource : String → Option DscResourceModel)
    (engine : String → Context → Except DscError String)
    (to_json : Option (List (String × JValue)) → String) (ctx : Context) :
    List Resource → Except DscError (List ResourceGetResult)
  | [] => .ok []
  | resource :: rest => do
    let properties ← invoke_property_expressions (fun s => engine s ctx) resource.properties
    match find_resource (strToLower resource.resource_type) with
    | none => .error (.ResourceNotFound resource.resource_type)
    | some dsc_resource => do
      let filter := to_json properties
      let get_result ← dsc_resource.getFn filter
      let tail ← invokeGetLoop find_resource engine to_json ctx rest
      .ok ({ name := resource.name
             resource_type := resource.resource_type
             result := get_result } :: tail)

/-- `invoke_get` (mod.rs lines 163-183). Validation/parsing and discovery
are external; `order_fn` stands for `get_resource_invocation_order`. The
final context is returned alongside the aggregate to expose the
configurator state after the call. -/
def invoke_get (order_fn : Configuration → Context → Except DscError (List Resource))
    (find_resource : String → Option DscResourceModel)
    (engine : String → Context → Except DscError String)
    (to_json : Option (List (String × JValue)) → String)
    (ctx : Context) (config : Configuration) :
    Except DscError (List ResourceGetResult × Context) := do
  let order ← order_fn config ctx
  let results ← invokeGetLoop find_resource engine to_json ctx order
  .ok (results, ctx)

/-- Loop body of `invoke_set` (mod.rs lines 198-212). -/
def invokeSetLoop (skip_test : Bool) (find_resource : String → Option DscResourceModel)
    (engine : String → Context → Except DscError String)
    (to_json : Option (List (String × JValue)) → String) (ctx : Context) :
    List Resource → Except DscError (List ResourceSetResult)
  | [] => .ok []
  | resource :: rest => do
    let properties ← invoke_property_expressions (fun s => engine s ctx) resource.properties
    match find_resource (strToLower resource.resource_type) with
    | none => .error (.ResourceNotFound resource.resource_type)
    | some dsc_resource => do
      let desired := to_json properties
      let set_result ← dsc_resource.setFn desired skip_test
      let tail ← invokeSetLoop skip_test find_resource engine to_json ctx rest
      .ok ({ name := resource.name
             resource_type := resource.resource_type
             result := set_result } :: tail)

/-- `invoke_set` (mod.rs lines 195-215). -/
def invoke_set (skip_test : Bool)
    (order_fn : Configuration → Context → Except DscError (List Resource))
    (find_resource : String → Option DscResourceModel)
    (engine : String → Context → Except DscError String)
    (to_json : Option (List (String × JValue)) → String)
    (ctx : Context) (config : Configuration) :
    Except DscError (List ResourceSetResult × Context) := do
  let order ← order_fn config ctx
  let results ← invokeSetLoop skip_test find_resource engine to_json ctx order
  .ok (results, ctx)

/-- Loop body of `invoke_test` (mod.rs lines 230-244). -/
def invokeTestLoop (find_resource : String → Option DscResourceModel)
    (engine : String → Context → Except DscError String)
    (to_json : Option (List (String × JValue)) → String) (ctx : Context) :
    List Resource → Except DscError (List ResourceTestResult)
  | [] => .ok []
  | resource :: rest => do
    let properties ← invoke_property_expressions (fun s => engine s ctx) resource.properties
    match find_resource (strToLower resource.resource_type) with
    | none => .error (.ResourceNotFound resource.resource_type)
    | some dsc_resource => do
      let expected := to_json properties
      let test_result ← dsc_resource.testFn expected
      let tail ← invokeTestLoop find_resource engine to_json ctx rest
      .ok ({ name := resource.name
             resource_type := resource.resource_type
             result := test_result } :: tail)

/-- `invoke_test` (mod.rs lines 227-247). -/
def invoke_test (order_fn : Configuration → Context → Except DscError (List Resource))
    (find_resource : String → Option DscResourceModel)
    (engine : String → Context → Except DscError String)
    (to_json : Option (List (String × JValue)) → String)
    (ctx : Context) (config : Configuration) :
    Except DscError (List ResourceTestResult × Context) := do
  let order ← order_fn config ctx
  let results ← invokeTestLoop find_resource engine to_json ctx order
  .ok (results, ctx)

/-- Resource loop of `invoke_export` (mod.rs lines 276-283). -/
def invokeExportLoop (find_resource : String → Option DscResourceModel)
    (to_json : Option (List (String × JValue)) → String) :
    List Resource → Configuration → Except DscError Configuration
  | [], conf => .ok conf
  | resource :: rest, conf =>
    match find_resource (strToLower resource.resource_type) with
    | none => .error (.ResourceNotFound resource.resource_type)
    | some dsc_resource => do
      let input := to_json resource.properties
      let conf' ← add_resource_export_results_to_configuration dsc_resource
        (some dsc_resource) conf input
      invokeExportLoop find_resource to_json rest conf'

/-- `invoke_export` (mod.rs lines 263-288): duplicate-type check first,
then per-resource provider export into a fresh configuration. -/
def invoke_export (find_resource : String → Option DscResourceModel)
    (to_json : Option (List (String × JValue)) → String)
    (config : Configuration) : Except DscError ConfigurationExportResult := do
  let duplicates := find_duplicate_resource_types config
  if duplicates.isEmpty = false then
    .error (.Validation ("Resource(s) " ++ String.intercalate "," duplicates
      ++ " specified multiple times"))
  else do
    let conf ← invokeExportLoop find_resource to_json config.resources
      { parameters := none, resources := [] }
    .ok { result := some conf }

mutual

/-- Deep equality on JSON values (serde_json::Value PartialEq). -/
def jvalueBeq : JValue → JValue → Bool
  | .null, .null => true
  | .bool a, .bool b => a == b
  | .num a, .num b => a == b
  | .str a, .str b => a == b
  | .arr a, .arr b => jvalueListBeq a b
  | .obj a, .obj b => jvalueFieldsBeq a b
  | _, _ => false

/-- Deep equality on JSON arrays. -/
def jvalueListBeq : List JValue → List JValue → Bool
  | [], [] => true
  | a :: as', b :: bs' => jvalueBeq a b && jvalueListBeq as' bs'
  | _, _ => false

/-- Deep equality on JSON object field lists. -/
def jvalueFieldsBeq : List (String × JValue) → List (String × JValue) → Bool
  | [], [] => true
  | (ka, va) :: as', (kb, vb) :: bs' => ka == kb && jvalueBeq va vb && jvalueFieldsBeq as' bs'
  | _, _ => false

end

/-- Length measure used by the length constraint: string length for
strings, element count for arrays, undefined otherwise. -/
def lengthOfValue : JValue → Option Nat
  | .str s => some s.length
  | .arr elems => some elems.length
  | _ => none

/-- Modelled from the spec: `check_length` of configure/contraints.rs (not
under src/). Applies when minLength or maxLength is set; length is string
length or array element count; any other type is a validation error. -/
def check_length (name : String) (value : JValue) (constraint : ParameterDecl) :
    Except DscError Unit :=
  match constraint.min_length, constraint.max_length with
  | none, none => .ok ()
  | minL, maxL =>
    match lengthOfValue value with
    | none =>
      .error (.Validation ("Parameter \x27" ++ name
        ++ "\x27 has a length constraint but is not a string or array"))
    | some len =>
      if minL.any (fun m => (len : Int) < m) then
        .error (.Validation ("Parameter \x27" ++ name ++ "\x27 is below the minimum length"))
      else if maxL.any (fun m => (len : Int) > m) then
        .error (.Validation ("Parameter \x27" ++ name ++ "\x27 is above the maximum length"))
      else .ok ()

/-- Modelled from the spec: `check_allowed_values` of
configure/contraints.rs (not under src/). When allowedValues is set the
value must be deep-equal to some element. -/
def check_allowed_values (name : String) (value : JValue) (constraint : ParameterDecl) :
    Except DscError Unit :=
  match constraint.allowed_values with
  | none => .ok ()
  | some allowed =>
    if allowed.any (fun v => jvalueBeq v value) then .ok ()
    else .error (.Validation ("Parameter \x27" ++ name ++ "\x27 is not in the allowed values list"))

/-- Modelled from the spec: `check_number_limits` of
configure/contraints.rs (not under src/). Applies when minValue or
maxValue is set; applicable only to integers; the value must lie in the
inclusive range. -/
def check_number_limits (name : String) (value : JValue) (constraint : ParameterDecl) :
    Except DscError Unit :=
  match constraint.min_value, constraint.max_value with
  | none, none => .ok ()
  | minV, maxV =>
    match value with
    | .num n =>
      if minV.any (fun m => n < m) then
        .error (.Validation ("Parameter \x27" ++ name ++ "\x27 is below the minimum value"))
      else if maxV.any (fun m => n > m) then
        .error (.Validation ("Parameter \x27" ++ name ++ "\x27 is above the maximum value"))
      else .ok ()
    | _ =>
      .error (.Validation ("Parameter \x27" ++ name
        ++ "\x27 has a numeric constraint but is not an integer"))

/-- Type-shape enforcement inlined in `set_parameters` (mod.rs lines
333-359): the runtime JSON shape must match the declared type. -/
def checkParameterType (name : String) (value : JValue) : DataType → Except DscError Unit
  | .string | .secureString =>
    match value with
    | .str _ => .ok ()
    | _ => .error (.Validation ("Parameter \x27" ++ name ++ "\x27 is not a string"))
  | .int =>
    match value with
    | .num _ => .ok ()
    | _ => .error (.Validation ("Parameter \x27" ++ name ++ "\x27 is not an integer"))
  | .bool =>
    match value with
    | .bool _ => .ok ()
    | _ => .error (.Validation ("Parameter \x27" ++ name ++ "\x27 is not a boolean"))
  | .array =>
    match value with
    | .arr _ => .ok ()
    | _ => .error (.Validation ("Parameter \x27" ++ name ++ "\x27 is not an array"))
  | .object | .secureObject =>
    match value with
    | .obj _ => .ok ()
    | _ => .error (.Validation ("Parameter \x27" ++ name ++ "\x27 is not an object"))

/-- Models `HashMap::insert` (insert or replace) on an association list. -/
def mapInsert (m : List (String × JValue)) (k : String) (v : JValue) :
    List (String × JValue) :=
  if m.any (fun p => p.1 == k) then m.map (fun p => if p.1 == k then (k, v) else p)
  else m ++ [(k, v)]

/-- Default-binding phase of `set_parameters` (mod.rs lines 309-315):
every declared default value is inserted into the context parameters. -/
def insertDefaults (decls : List (String × ParameterDecl)) (ctx : Context) : Context :=
  decls.foldl
    (fun c p =>
      match p.2.default_value with
      | some default_value => { c with parameters := mapInsert c.parameters p.1 default_value }
      | none => c)
    ctx

/-- Input-binding loop of `set_parameters` (mod.rs lines 325-366): each
input parameter needs a declaration, passes the three constraint checks
and the type-shape check, then is inserted into the context. On failure
the context mutated so far is kept (the `&mut self` state). -/
def setParametersLoop (decls : List (String × ParameterDecl)) :
    List (String × JValue) → Context → Context × Except DscError Unit
  | [], ctx => (ctx, .ok ())
  | (name, value) :: rest, ctx =>
    match List.lookup name decls with
    | some constraint =>
      match check_length name value constraint with
      | .error e => (ctx, .error e)
      | .ok _ =>
        match check_allowed_values name value constraint with
        | .error e => (ctx, .error e)
        | .ok _ =>
          match check_number_limits name value constraint with
          | .error e => (ctx, .error e)
          | .ok _ =>
            match checkParameterType name value constraint.parameter_type with
            | .error e => (ctx, .error e)
            | .ok _ =>
              setParametersLoop decls rest
                { ctx with parameters := mapInsert ctx.parameters name value }
    | none =>
      (ctx, .error (.Validation ("Parameter \x27" ++ name ++ "\x27 not defined in configuration")))

/-- `set_parameters` (mod.rs lines 299-368). The parameters input document
is modelled in already-deserialized form (`Input.parameters`); the
function returns the possibly mutated context together with the result. -/
def set_parameters (ctx : Context) (config : Configuration)
    (parameters_input : Option (List (String × JValue))) :
    Context × Except DscError Unit :=
  match config.parameters with
  | none =>
    match parameters_input with
    | none => (ctx, .ok ())
    | some _ => (ctx, .error (.Validation "No parameters defined in configuration"))
  | some parameters =>
    let ctx := insertDefaults parameters ctx
    match parameters_input with
    | none => (ctx, .ok ())
    | some input =>
      match config.parameters with
      | none => (ctx, .error (.Validation "No parameters defined in configuration"))
      | some parameters_constraints => setParametersLoop parameters_constraints input ctx

mutual

/-- A value contains a bracketed string somewhere. -/
def hasBracketedValue : JValue → Bool
  | .str s => bracketed s
  | .obj fields => hasBracketedFields fields
  | .arr elems => hasBracketedElems elems
  | _ => false

/-- A property map contains a bracketed string somewhere. -/
def hasBracketedFields : List (String × JValue) → Bool
  | [] => false
  | (_, v) :: rest => hasBracketedValue v || hasBracketedFields rest

/-- An element list contains a bracketed string somewhere. -/
def hasBracketedElems : List JValue → Bool
  | [] => false
  | v :: rest => hasBracketedValue v || hasBracketedElems rest

end

mutual

/-- A value contains an array directly inside an array. -/
def hasNestedArray : JValue → Bool
  | .obj fields => hasNestedArrayFields fields
  | .arr elems => hasNestedArrayElems elems
  | _ => false

/-- A property map contains an array directly inside an array. -/
def hasNestedArrayFields : List (String × JValue) → Bool
  | [] => false
  | (_, v) :: rest => hasNestedArray v || hasNestedArrayFields rest

/-- The elements of an array contain a directly nested array: an array
element is itself one, and object elements are searched recursively. -/
def hasNestedArrayElems : List JValue → Bool
  | [] => false
  | .arr _ :: _ => true
  | .obj fields :: rest => hasNestedArrayFields fields || hasNestedArrayElems rest
  | _ :: rest => hasNestedArrayElems rest

end


theorem ok_bind {α β : Type} (a : α) (f : α → Except DscError β) :
    (Except.ok a >>= f) = f a := rfl

theorem error_bind {α β : Type} (e : DscError) (f : α → Except DscError β) :
    ((Except.error e : Except DscError α) >>= f) = .error e := rfl

/-- The nested-array parse error, the only error the escape walker can
produce. -/
def nestedArraysErr : DscError := .Parser "Nested arrays not supported"

theorem escape_error_master :
    (∀ l : List (String × JValue), ∀ e, escapeEntries l = .error e → e = nestedArraysErr) ∧
    (∀ v : JValue, ∀ e, escapeMapValue v = .error e → e = nestedArraysErr) ∧
    (∀ l : List JValue, ∀ e, escapeArrayElems l = .error e → e = nestedArraysErr) := by
  apply escapeEntries.mutual_induct
    (fun l => ∀ e, escapeEntries l = .error e → e = nestedArraysErr)
    (fun v => ∀ e, escapeMapValue v = .error e → e = nestedArraysErr)
    (fun l => ∀ e, escapeArrayElems l = .error e → e = nestedArraysErr)
  case _ => -- obj value
    intro object ih e h
    rw [escapeMapValue] at h
    cases hv : escapeEntries object with
    | error e' => rw [hv, error_bind] at h; cases h; exact ih _ hv
    | ok v => rw [hv, ok_bind] at h; cases h
  case _ => -- arr value
    intro array ih e h
    rw [escapeMapValue] at h
    cases hv : escapeArrayElems array with
    | error e' => rw [hv, error_bind] at h; cases h; exact ih _ hv
    | ok v => rw [hv, ok_bind] at h; cases h
  case _ => -- str, asStr none (dead)
    intro s hs e h
    simp [asStr] at hs
  case _ => -- str bracketed
    intro s statement hs hb e h
    rw [escapeMapValue] at h
    simp [hs, hb] at h
  case _ => -- str not bracketed
    intro s statement hs hb e h
    rw [escapeMapValue] at h
    simp [hs, hb] at h
  case _ => -- other scalar
    intro value h1 h2 h3 e h
    cases value with
    | obj o => exact absurd rfl (h1 o)
    | arr a => exact absurd rfl (h2 a)
    | str s => exact absurd rfl (h3 s)
    | null => exact nomatch h
    | bool b => exact nomatch h
    | num n => exact nomatch h
  case _ => -- elems nil
    intro e h
    rw [escapeArrayElems] at h; cases h
  case _ => -- elems obj cons
    intro object rest ih1 ih3 e h
    rw [escapeArrayElems] at h
    cases hv : escapeEntries object with
    | error e' => rw [hv, error_bind] at h; cases h; exact ih1 _ hv
    | ok v =>
      rw [hv, ok_bind] at h
      cases ht : escapeArrayElems rest with
      | error e' => rw [ht, error_bind] at h; cases h; exact ih3 _ ht
      | ok t => rw [ht, ok_bind] at h; cases h
  case _ => -- elems arr cons
    intro elems tail e h
    rw [escapeArrayElems] at h
    cases h
    rfl
  case _ => -- elems str asStr none (dead)
    intro s rest hs e h
    simp [asStr] at hs
  case _ => -- elems str bracketed
    intro s rest statement hs hb ih e h
    simp only [asStr, Option.some.injEq] at hs
    subst hs
    have hrw : escapeArrayElems (JValue.str s :: rest)
        = if bracketed s then escapeArrayElems rest >>= fun t => .ok (.str ("[" ++ s) :: t)
          else escapeArrayElems rest >>= fun t => .ok (.str s :: t) := rfl
    rw [hrw, if_pos hb] at h
    cases ht : escapeArrayElems rest with
    | error e' => rw [ht, error_bind] at h; cases h; exact ih _ ht
    | ok t => rw [ht, ok_bind] at h; cases h
  case _ => -- elems str not bracketed
    intro s rest statement hs hb ih e h
    simp only [asStr, Option.some.injEq] at hs
    subst hs
    have hrw : escapeArrayElems (JValue.str s :: rest)
        = if bracketed s then escapeArrayElems rest >>= fun t => .ok (.str ("[" ++ s) :: t)
          else escapeArrayElems rest >>= fun t => .ok (.str s :: t) := rfl
    rw [hrw, if_neg hb] at h
    cases ht : escapeArrayElems rest with
    | error e' => rw [ht, error_bind] at h; cases h; exact ih _ ht
    | ok t => rw [ht, ok_bind] at h; cases h
  case _ => -- elems other cons
    intro element rest h1 h2 h3 ih e h
    cases element with
    | obj o => exact absurd rfl (h1 o)
    | arr a => exact absurd rfl (h2 a)
    | str s => exact absurd rfl (h3 s)
    | null =>
      have hrw : escapeArrayElems (JValue.null :: rest)
          = escapeArrayElems rest >>= fun t => .ok (JValue.null :: t) := rfl
      rw [hrw] at h
      cases ht : escapeArrayElems rest with
      | error e' => rw [ht, error_bind] at h; cases h; exact ih _ ht
      | ok t => rw [ht, ok_bind] at h; cases h
    | bool b =>
      have hrw : escapeArrayElems (JValue.bool b :: rest)
          = escapeArrayElems rest >>= fun t => .ok (JValue.bool b :: t) := rfl
      rw [hrw] at h
      cases ht : escapeArrayElems rest with
      | error e' => rw [ht, error_bind] at h; cases h; exact ih _ ht
      | ok t => rw [ht, ok_bind] at h; cases h
    | num n =>
      have hrw : escapeArrayElems (JValue.num n :: rest)
          = escapeArrayElems rest >>= fun t => .ok (JValue.num n :: t) := rfl
      rw [hrw] at h
      cases ht : escapeArrayElems rest with
      | error e' => rw [ht, error_bind] at h; cases h; exact ih _ ht
      | ok t => rw [ht, ok_bind] at h; cases h
  case _ => -- entries nil
    intro e h
    rw [escapeEntries] at h; cases h
  case _ => -- entries cons
    intro name value rest ih2 ih1 e h
    rw [escapeEntries] at h
    cases hv : escapeMapValue value with
    | error e' => rw [hv, error_bind] at h; cases h; exact ih2 _ hv
    | ok v =>
      rw [hv, ok_bind] at h
      cases ht : escapeEntries rest with
      | error e' => rw [ht, error_bind] at h; cases h; exact ih1 _ ht
      | ok t => rw [ht, ok_bind] at h; cases h


theorem escape_nested_master :
    (∀ l : List (String × JValue),
      (hasNestedArrayFields l = false → ∃ m, escapeEntries l = .ok m) ∧
      (hasNestedArrayFields l = true → escapeEntries l = .error nestedArraysErr)) ∧
    (∀ v : JValue,
      (hasNestedArray v = false → ∃ w, escapeMapValue v = .ok w) ∧
      (hasNestedArray v = true → escapeMapValue v = .error nestedArraysErr)) ∧
    (∀ l : List JValue,
      (hasNestedArrayElems l = false → ∃ m, escapeArrayElems l = .ok m) ∧
      (hasNestedArrayElems l = true → escapeArrayElems l = .error nestedArraysErr)) := by
  apply escapeEntries.mutual_induct
    (fun l =>
      (hasNestedArrayFields l = false → ∃ m, escapeEntries l = .ok m) ∧
      (hasNestedArrayFields l = true → escapeEntries l = .error nestedArraysErr))
    (fun v =>
      (hasNestedArray v = false → ∃ w, escapeMapValue v = .ok w) ∧
      (hasNestedArray v = true → escapeMapValue v = .error nestedArraysErr))
    (fun l =>
      (hasNestedArrayElems l = false → ∃ m, escapeArrayElems l = .ok m) ∧
      (hasNestedArrayElems l = true → escapeArrayElems l = .error nestedArraysErr))
  case _ => -- obj value
    intro object ih
    have hrw : escapeMapValue (JValue.obj object)
        = escapeEntries object >>= fun v => .ok (optionMapToValue (some v)) := rfl
    have hh : hasNestedArray (JValue.obj object) = hasNestedArrayFields object := rfl
    constructor
    · intro h
      rw [hh] at h
      obtain ⟨m, hm⟩ := ih.1 h
      exact ⟨optionMapToValue (some m), by rw [hrw, hm, ok_bind]⟩
    · intro h
      rw [hh] at h
      rw [hrw, ih.2 h, error_bind]
  case _ => -- arr value
    intro array ih
    have hrw : escapeMapValue (JValue.arr array)
        = escapeArrayElems array >>= fun v => .ok (.arr v) := rfl
    have hh : hasNestedArray (JValue.arr array) = hasNestedArrayElems array := rfl
    constructor
    · intro h
      rw [hh] at h
      obtain ⟨m, hm⟩ := ih.1 h
      exact ⟨.arr m, by rw [hrw, hm, ok_bind]⟩
    · intro h
      rw [hh] at h
      rw [hrw, ih.2 h, error_bind]
  case _ => -- str, asStr none (dead)
    intro s hs
    simp [asStr] at hs
  case _ => -- str bracketed
    intro s statement hs hb
    simp only [asStr, Option.some.injEq] at hs
    subst hs
    refine ⟨(fun _ => ⟨.str ("[" ++ s), ?_⟩), (fun h => nomatch h)⟩
    have hrw : escapeMapValue (JValue.str s)
        = if bracketed s then .ok (.str ("[" ++ s)) else .ok (.str s) := rfl
    rw [hrw, if_pos hb]
  case _ => -- str not bracketed
    intro s statement hs hb
    simp only [asStr, Option.some.injEq] at hs
    subst hs
    refine ⟨(fun _ => ⟨.str s, ?_⟩), (fun h => nomatch h)⟩
    have hrw : escapeMapValue (JValue.str s)
        = if bracketed s then .ok (.str ("[" ++ s)) else .ok (.str s) := rfl
    rw [hrw, if_neg hb]
  case _ => -- other scalar
    intro value h1 h2 h3
    cases value with
    | obj o => exact absurd rfl (h1 o)
    | arr a => exact absurd rfl (h2 a)
    | str s => exact absurd rfl (h3 s)
    | null => exact ⟨(fun _ => ⟨.null, rfl⟩), (fun h => nomatch h)⟩
    | bool b => exact ⟨(fun _ => ⟨.bool b, rfl⟩), (fun h => nomatch h)⟩
    | num n => exact ⟨(fun _ => ⟨.num n, rfl⟩), (fun h => nomatch h)⟩
  case _ => -- elems nil
    exact ⟨(fun _ => ⟨[], rfl⟩), (fun h => nomatch h)⟩
  case _ => -- elems obj cons
    intro object rest ih1 ih3
    have hrw : escapeArrayElems (JValue.obj object :: rest)
        = escapeEntries object >>= fun v =>
            escapeArrayElems rest >>= fun t => .ok (optionMapToValue (some v) :: t) := rfl
    have hh : hasNestedArrayElems (JValue.obj object :: rest)
        = (hasNestedArrayFields object || hasNestedArrayElems rest) := rfl
    constructor
    · intro h
      rw [hh, Bool.or_eq_false_iff] at h
      obtain ⟨m, hm⟩ := ih1.1 h.1
      obtain ⟨t, ht⟩ := ih3.1 h.2
      exact ⟨optionMapToValue (some m) :: t, by rw [hrw, hm, ok_bind, ht, ok_bind]⟩
    · intro h
      rw [hh, Bool.or_eq_true] at h
      cases hf : hasNestedArrayFields object with
      | true => rw [hrw, ih1.2 hf, error_bind]
      | false =>
        obtain ⟨m, hm⟩ := ih1.1 hf
        have hr : hasNestedArrayElems rest = true := by
          cases h with
          | inl h' => rw [hf] at h'; cases h'
          | inr h' => exact h'
        rw [hrw, hm, ok_bind, ih3.2 hr, error_bind]
  case _ => -- elems arr cons
    intro elems tail
    exact ⟨(fun h => nomatch h), (fun _ => rfl)⟩
  case _ => -- elems str asStr none (dead)
    intro s rest hs
    simp [asStr] at hs
  case _ => -- elems str bracketed
    intro s rest statement hs hb ih
    simp only [asStr, Option.some.injEq] at hs
    subst hs
    have hrw : escapeArrayElems (JValue.str s :: rest)
        = if bracketed s then escapeArrayElems rest >>= fun t => .ok (.str ("[" ++ s) :: t)
          else escapeArrayElems rest >>= fun t => .ok (.str s :: t) := rfl
    have hh : hasNestedArrayElems (JValue.str s :: rest) = hasNestedArrayElems rest := rfl
    rw [hrw, if_pos hb]
    constructor
    · intro h
      rw [hh] at h
      obtain ⟨t, ht⟩ := ih.1 h
      exact ⟨.str ("[" ++ s) :: t, by rw [ht, ok_bind]⟩
    · intro h
      rw [hh] at h
      rw [ih.2 h, error_bind]
  case _ => -- elems str not bracketed
    intro s rest statement hs hb ih
    simp only [asStr, Option.some.injEq] at hs
    subst hs
    have hrw : escapeArrayElems (JValue.str s :: rest)
        = if bracketed s then escapeArrayElems rest >>= fun t => .ok (.str ("[" ++ s) :: t)
          else escapeArrayElems rest >>= fun t => .ok (.str s :: t) := rfl
    have hh : hasNestedArrayElems (JValue.str s :: rest) = hasNestedArrayElems rest := rfl
    rw [hrw, if_neg hb]
    constructor
    · intro h
      rw [hh] at h
      obtain ⟨t, ht⟩ := ih.1 h
      exact ⟨.str s :: t, by rw [ht, ok_bind]⟩
    · intro h
      rw [hh] at h
      rw [ih.2 h, error_bind]
  case _ => -- elems other cons
    intro element rest h1 h2 h3 ih
    cases element with
    | obj o => exact absurd rfl (h1 o)
    | arr a => exact absurd rfl (h2 a)
    | str s => exact absurd rfl (h3 s)
    | null =>
      have hrw : escapeArrayElems (JValue.null :: rest)
          = escapeArrayElems rest >>= fun t => .ok (JValue.null :: t) := rfl
      have hh : hasNestedArrayElems (JValue.null :: rest) = hasNestedArrayElems rest := rfl
      rw [hrw, hh]
      exact ⟨fun h => (ih.1 h).elim fun t ht => ⟨JValue.null :: t, by rw [ht, ok_bind]⟩,
             fun h => by rw [ih.2 h, error_bind]⟩
    | bool b =>
      have hrw : escapeArrayElems (JValue.bool b :: rest)
          = escapeArrayElems rest >>= fun t => .ok (JValue.bool b :: t) := rfl
      have hh : hasNestedArrayElems (JValue.bool b :: rest) = hasNestedArrayElems rest := rfl
      rw [hrw, hh]
      exact ⟨fun h => (ih.1 h).elim fun t ht => ⟨JValue.bool b :: t, by rw [ht, ok_bind]⟩,
             fun h => by rw [ih.2 h, error_bind]⟩
    | num n =>
      have hrw : escapeArrayElems (JValue.num n :: rest)
          = escapeArrayElems rest >>= fun t => .ok (JValue.num n :: t) := rfl
      have hh : hasNestedArrayElems (JValue.num n :: rest) = hasNestedArrayElems rest := rfl
      rw [hrw, hh]
      exact ⟨fun h => (ih.1 h).elim fun t ht => ⟨JValue.num n :: t, by rw [ht, ok_bind]⟩,
             fun h => by rw [ih.2 h, error_bind]⟩
  case _ => -- entries nil
    exact ⟨(fun _ => ⟨[], rfl⟩), (fun h => nomatch h)⟩
  case _ => -- entries cons
    intro name value rest ih2 ih1
    have hrw : escapeEntries ((name, value) :: rest)
        = escapeMapValue value >>= fun v =>
            escapeEntries rest >>= fun t => .ok ((name, v) :: t) := rfl
    have hh : hasNestedArrayFields ((name, value) :: rest)
        = (hasNestedArray value || hasNestedArrayFields rest) := rfl
    constructor
    · intro h
      rw [hh, Bool.or_eq_false_iff] at h
      obtain ⟨w, hw⟩ := ih2.1 h.1
      obtain ⟨t, ht⟩ := ih1.1 h.2
      exact ⟨(name, w) :: t, by rw [hrw, hw, ok_bind, ht, ok_bind]⟩
    · intro h
      rw [hh, Bool.or_eq_true] at h
      cases hf : hasNestedArray value with
      | true => rw [hrw, ih2.2 hf, error_bind]
      | false =>
        obtain ⟨w, hw⟩ := ih2.1 hf
        have hr : hasNestedArrayFields rest = true := by
          cases h with
          | inl h' => rw [hf] at h'; cases h'
          | inr h' => exact h'
        rw [hrw, hw, ok_bind, ih1.2 hr, error_bind]


theorem bracketed_prepend (s : String) (h : bracketed s = true) :
    bracketed ("[" ++ s) = true := by
  simp only [bracketed, Bool.and_eq_true, beq_iff_eq] at h ⊢
  obtain ⟨h1, h2⟩ := h
  refine ⟨?_, ?_⟩
  · rw [String.data_append]
    cases hs : s.data with
    | nil => simp [hs] at h1
    | cons c cs => simp
  · rw [String.data_append]
    cases hs : s.data with
    | nil => simp [hs] at h1
    | cons c cs =>
      show ('[' :: c :: cs).getLast? = some ']'
      rw [List.getLast?_cons_cons, ← hs]
      exact h2

theorem prepend_bracket_ne (s : String) : ("[" ++ s) ≠ s := by
  intro h
  have hl := congrArg String.length h
  rw [String.length_append] at hl
  have h1 : "[".length = 1 := rfl
  omega

theorem escape_identity_master :
    (∀ l : List (String × JValue),
      hasBracketedFields l = false → hasNestedArrayFields l = false →
        escapeEntries l = .ok l) ∧
    (∀ v : JValue,
      hasBracketedValue v = false → hasNestedArray v = false →
        escapeMapValue v = .ok v) ∧
    (∀ l : List JValue,
      hasBracketedElems l = false → hasNestedArrayElems l = false →
        escapeArrayElems l = .ok l) := by
  apply escapeEntries.mutual_induct
    (fun l =>
      hasBracketedFields l = false → hasNestedArrayFields l = false → escapeEntries l = .ok l)
    (fun v =>
      hasBracketedValue v = false → hasNestedArray v = false → escapeMapValue v = .ok v)
    (fun l =>
      hasBracketedElems l = false → hasNestedArrayElems l = false → escapeArrayElems l = .ok l)
  case _ =>
    intro object ih hb hn
    have hrw : escapeMapValue (JValue.obj object)
        = escapeEntries object >>= fun v => .ok (optionMapToValue (some v)) := rfl
    rw [hrw, ih hb hn, ok_bind]
    rfl
  case _ =>
    intro array ih hb hn
    have hrw : escapeMapValue (JValue.arr array)
        = escapeArrayElems array >>= fun v => .ok (.arr v) := rfl
    rw [hrw, ih hb hn, ok_bind]
  case _ =>
    intro s hs
    simp [asStr] at hs
  case _ =>
    intro s statement hs hbr hb hn
    simp only [asStr, Option.some.injEq] at hs
    subst hs
    have : hasBracketedValue (JValue.str s) = bracketed s := rfl
    rw [this, hbr] at hb
    cases hb
  case _ =>
    intro s statement hs hbr hb hn
    simp only [asStr, Option.some.injEq] at hs
    subst hs
    have hrw : escapeMapValue (JValue.str s)
        = if bracketed s then .ok (.str ("[" ++ s)) else .ok (.str s) := rfl
    rw [hrw, if_neg hbr]
  case _ =>
    intro value h1 h2 h3 hb hn
    cases value with
    | obj o => exact absurd rfl (h1 o)
    | arr a => exact absurd rfl (h2 a)
    | str s => exact absurd rfl (h3 s)
    | null => rfl
    | bool b => rfl
    | num n => rfl
  case _ =>
    intro hb hn
    rfl
  case _ =>
    intro object rest ih1 ih3 hb hn
    have hbo : hasBracketedElems (JValue.obj object :: rest)
        = (hasBracketedFields object || hasBracketedElems rest) := rfl
    have hno : hasNestedArrayElems (JValue.obj object :: rest)
        = (hasNestedArrayFields object || hasNestedArrayElems rest) := rfl
    rw [hbo, Bool.or_eq_false_iff] at hb
    rw [hno, Bool.or_eq_false_iff] at hn
    have hrw : escapeArrayElems (JValue.obj object :: rest)
        = escapeEntries object >>= fun v =>
            escapeArrayElems rest >>= fun t => .ok (optionMapToValue (some v) :: t) := rfl
    rw [hrw, ih1 hb.1 hn.1, ok_bind, ih3 hb.2 hn.2, ok_bind]
    rfl
  case _ =>
    intro elems tail hb hn
    exact nomatch hn
  case _ =>
    intro s rest hs
    simp [asStr] at hs
  case _ =>
    intro s rest statement hs hbr ih hb hn
    simp only [asStr, Option.some.injEq] at hs
    subst hs
    have : hasBracketedElems (JValue.str s :: rest)
        = (bracketed s || hasBracketedElems rest) := rfl
    rw [this, hbr] at hb
    cases hb
  case _ =>
    intro s rest statement hs hbr ih hb hn
    simp only [asStr, Option.some.injEq] at hs
    subst hs
    have hbo : hasBracketedElems (JValue.str s :: rest)
        = (bracketed s || hasBracketedElems rest) := rfl
    have hno : hasNestedArrayElems (JValue.str s :: rest) = hasNestedArrayElems rest := rfl
    rw [hbo, Bool.or_eq_false_iff] at hb
    rw [hno] at hn
    have hrw : escapeArrayElems (JValue.str s :: rest)
        = if bracketed s then escapeArrayElems rest >>= fun t => .ok (.str ("[" ++ s) :: t)
          else escapeArrayElems rest >>= fun t => .ok (.str s :: t) := rfl
    rw [hrw, if_neg hbr, ih hb.2 hn, ok_bind]
  case _ =>
    intro element rest h1 h2 h3 ih hb hn
    cases element with
    | obj o => exact absurd rfl (h1 o)
    | arr a => exact absurd rfl (h2 a)
    | str s => exact absurd rfl (h3 s)
    | null =>
      have hbo : hasBracketedElems (JValue.null :: rest) = hasBracketedElems rest := by
        show (hasBracketedValue JValue.null || hasBracketedElems rest) = hasBracketedElems rest
        rfl
      have hno : hasNestedArrayElems (JValue.null :: rest) = hasNestedArrayElems rest := rfl
      rw [hbo] at hb
      rw [hno] at hn
      have hrw : escapeArrayElems (JValue.null :: rest)
          = escapeArrayElems rest >>= fun t => .ok (JValue.null :: t) := rfl
      rw [hrw, ih hb hn, ok_bind]
    | bool b =>
      have hbo : hasBracketedElems (JValue.bool b :: rest) = hasBracketedElems rest := by
        show (hasBracketedValue (JValue.bool b) || hasBracketedElems rest) = hasBracketedElems rest
        rfl
      have hno : hasNestedArrayElems (JValue.bool b :: rest) = hasNestedArrayElems rest := rfl
      rw [hbo] at hb
      rw [hno] at hn
      have hrw : escapeArrayElems (JValue.bool b :: rest)
          = escapeArrayElems rest >>= fun t => .ok (JValue.bool b :: t) := rfl
      rw [hrw, ih hb hn, ok_bind]
    | num n =>
      have hbo : hasBracketedElems (JValue.num n :: rest) = hasBracketedElems rest := by
        show (hasBracketedValue (JValue.num n) || hasBracketedElems rest) = hasBracketedElems rest
        rfl
      have hno : hasNestedArrayElems (JValue.num n :: rest) = hasNestedArrayElems rest := rfl
      rw [hbo] at hb
      rw [hno] at hn
      have hrw : escapeArrayElems (JValue.num n :: rest)
          = escapeArrayElems rest >>= fun t => .ok (JValue.num n :: t) := rfl
      rw [hrw, ih hb hn, ok_bind]
  case _ =>
    intro hb hn
    rfl
  case _ =>
    intro name value rest ih2 ih1 hb hn
    have hbo : hasBracketedFields ((name, value) :: rest)
        = (hasBracketedValue value || hasBracketedFields rest) := rfl
    have hno : hasNestedArrayFields ((name, value) :: rest)
        = (hasNestedArray value || hasNestedArrayFields rest) := rfl
    rw [hbo, Bool.or_eq_false_iff] at hb
    rw [hno, Bool.or_eq_false_iff] at hn
    have hrw : escapeEntries ((name, value) :: rest)
        = escapeMapValue value >>= fun v =>
            escapeEntries rest >>= fun t => .ok ((name, v) :: t) := rfl
    rw [hrw, ih2 hb.1 hn.1, ok_bind, ih1 hb.2 hn.2, ok_bind]


theorem escape_growth_master :
    (∀ l : List (String × JValue), hasBracketedFields l = true →
      ∀ m, escapeEntries l = .ok m → hasBracketedFields m = true ∧ m ≠ l) ∧
    (∀ v : JValue, hasBracketedValue v = true →
      ∀ w, escapeMapValue v = .ok w → hasBracketedValue w = true ∧ w ≠ v) ∧
    (∀ l : List JValue, hasBracketedElems l = true →
      ∀ m, escapeArrayElems l = .ok m → hasBracketedElems m = true ∧ m ≠ l) := by
  apply escapeEntries.mutual_induct
    (fun l => hasBracketedFields l = true →
      ∀ m, escapeEntries l = .ok m → hasBracketedFields m = true ∧ m ≠ l)
    (fun v => hasBracketedValue v = true →
      ∀ w, escapeMapValue v = .ok w → hasBracketedValue w = true ∧ w ≠ v)
    (fun l => hasBracketedElems l = true →
      ∀ m, escapeArrayElems l = .ok m → hasBracketedElems m = true ∧ m ≠ l)
  case _ =>
    intro object ih hb w hw
    have hrw : escapeMapValue (JValue.obj object)
        = escapeEntries object >>= fun v => .ok (optionMapToValue (some v)) := rfl
    rw [hrw] at hw
    cases hv : escapeEntries object with
    | error e => rw [hv, error_bind] at hw; cases hw
    | ok m =>
      rw [hv, ok_bind] at hw
      cases hw
      have hbo : hasBracketedValue (JValue.obj object) = hasBracketedFields object := rfl
      rw [hbo] at hb
      obtain ⟨hm1, hm2⟩ := ih hb m hv
      refine ⟨hm1, ?_⟩
      intro heq
      rw [show optionMapToValue (some m) = JValue.obj m from rfl] at heq
      injection heq with heq'
      exact hm2 heq'
  case _ =>
    intro array ih hb w hw
    have hrw : escapeMapValue (JValue.arr array)
        = escapeArrayElems array >>= fun v => .ok (.arr v) := rfl
    rw [hrw] at hw
    cases hv : escapeArrayElems array with
    | error e => rw [hv, error_bind] at hw; cases hw
    | ok m =>
      rw [hv, ok_bind] at hw
      cases hw
      have hbo : hasBracketedValue (JValue.arr array) = hasBracketedElems array := rfl
      rw [hbo] at hb
      obtain ⟨hm1, hm2⟩ := ih hb m hv
      refine ⟨hm1, ?_⟩
      intro heq
      injection heq with heq'
      exact hm2 heq'
  case _ =>
    intro s hs
    simp [asStr] at hs
  case _ =>
    intro s statement hs hbr hb w hw
    simp only [asStr, Option.some.injEq] at hs
    subst hs
    have hrw : escapeMapValue (JValue.str s)
        = if bracketed s then .ok (.str ("[" ++ s)) else .ok (.str s) := rfl
    rw [hrw, if_pos hbr] at hw
    cases hw
    constructor
    · show bracketed ("[" ++ s) = true
      exact bracketed_prepend s hbr
    · intro heq
      injection heq with heq'
      exact prepend_bracket_ne s heq'
  case _ =>
    intro s statement hs hbr hb w hw
    simp only [asStr, Option.some.injEq] at hs
    subst hs
    have : hasBracketedValue (JValue.str s) = bracketed s := rfl
    rw [this] at hb
    exact absurd hb hbr
  case _ =>
    intro value h1 h2 h3 hb w hw
    cases value with
    | obj o => exact absurd rfl (h1 o)
    | arr a => exact absurd rfl (h2 a)
    | str s => exact absurd rfl (h3 s)
    | null => exact nomatch hb
    | bool b => exact nomatch hb
    | num n => exact nomatch hb
  case _ =>
    intro hb
    exact nomatch hb
  case _ =>
    intro object rest ih1 ih3 hb m hm
    have hrw : escapeArrayElems (JValue.obj object :: rest)
        = escapeEntries object >>= fun v =>
            escapeArrayElems rest >>= fun t => .ok (optionMapToValue (some v) :: t) := rfl
    rw [hrw] at hm
    cases hv : escapeEntries object with
    | error e => rw [hv, error_bind] at hm; cases hm
    | ok mv =>
      rw [hv, ok_bind] at hm
      cases ht : escapeArrayElems rest with
      | error e => rw [ht, error_bind] at hm; cases hm
      | ok mt =>
        rw [ht, ok_bind] at hm
        cases hm
        have hbo : hasBracketedElems (JValue.obj object :: rest)
            = (hasBracketedFields object || hasBracketedElems rest) := rfl
        rw [hbo, Bool.or_eq_true] at hb
        have hout : hasBracketedElems (optionMapToValue (some mv) :: mt)
            = (hasBracketedFields mv || hasBracketedElems mt) := rfl
        cases hf : hasBracketedFields object with
        | true =>
          obtain ⟨q1, q2⟩ := ih1 hf mv hv
          constructor
          · rw [hout, q1, Bool.true_or]
          · intro heq
            rw [List.cons.injEq] at heq
            rw [show optionMapToValue (some mv) = JValue.obj mv from rfl] at heq
            injection heq.1 with heq'
            exact q2 heq'
        | false =>
          have hr : hasBracketedElems rest = true := by
            cases hb with
            | inl h' => rw [hf] at h'; cases h'
            | inr h' => exact h'
          obtain ⟨q1, q2⟩ := ih3 hr mt ht
          constructor
          · rw [hout, q1, Bool.or_true]
          · intro heq
            rw [List.cons.injEq] at heq
            exact q2 heq.2
  case _ =>
    intro elems tail hb m hm
    exact nomatch hm
  case _ =>
    intro s rest hs
    simp [asStr] at hs
  case _ =>
    intro s rest statement hs hbr ih hb m hm
    simp only [asStr, Option.some.injEq] at hs
    subst hs
    have hrw : escapeArrayElems (JValue.str s :: rest)
        = if bracketed s then escapeArrayElems rest >>= fun t => .ok (.str ("[" ++ s) :: t)
          else escapeArrayElems rest >>= fun t => .ok (.str s :: t) := rfl
    rw [hrw, if_pos hbr] at hm
    cases ht : escapeArrayElems rest with
    | error e => rw [ht, error_bind] at hm; cases hm
    | ok mt =>
      rw [ht, ok_bind] at hm
      cases hm
      constructor
      · show (bracketed ("[" ++ s) || hasBracketedElems mt) = true
        rw [bracketed_prepend s hbr, Bool.true_or]
      · intro heq
        rw [List.cons.injEq] at heq
        injection heq.1 with heq'
        exact prepend_bracket_ne s heq'
  case _ =>
    intro s rest statement hs hbr ih hb m hm
    simp only [asStr, Option.some.injEq] at hs
    subst hs
    have hbo : hasBracketedElems (JValue.str s :: rest)
        = (bracketed s || hasBracketedElems rest) := rfl
    rw [hbo, Bool.or_eq_true] at hb
    have hr : hasBracketedElems rest = true := by
      cases hb with
      | inl h' => exact absurd h' hbr
      | inr h' => exact h'
    have hrw : escapeArrayElems (JValue.str s :: rest)
        = if bracketed s then escapeArrayElems rest >>= fun t => .ok (.str ("[" ++ s) :: t)
          else escapeArrayElems rest >>= fun t => .ok (.str s :: t) := rfl
    rw [hrw, if_neg hbr] at hm
    cases ht : escapeArrayElems rest with
    | error e => rw [ht, error_bind] at hm; cases hm
    | ok mt =>
      rw [ht, ok_bind] at hm
      cases hm
      obtain ⟨q1, q2⟩ := ih hr mt ht
      constructor
      · show (bracketed s || hasBracketedElems mt) = true
        rw [q1, Bool.or_true]
      · intro heq
        rw [List.cons.injEq] at heq
        exact q2 heq.2
  case _ =>
    intro element rest h1 h2 h3 ih hb m hm
    cases element with
    | obj o => exact absurd rfl (h1 o)
    | arr a => exact absurd rfl (h2 a)
    | str s => exact absurd rfl (h3 s)
    | null =>
      have hbo : hasBracketedElems (JValue.null :: rest) = hasBracketedElems rest := rfl
      rw [hbo] at hb
      have hrw : escapeArrayElems (JValue.null :: rest)
          = escapeArrayElems rest >>= fun t => .ok (JValue.null :: t) := rfl
      rw [hrw] at hm
      cases ht : escapeArrayElems rest with
      | error e => rw [ht, error_bind] at hm; cases hm
      | ok mt =>
        rw [ht, ok_bind] at hm
        cases hm
        obtain ⟨q1, q2⟩ := ih hb mt ht
        constructor
        · show (hasBracketedValue JValue.null || hasBracketedElems mt) = true
          rw [q1, Bool.or_true]
        · intro heq
          rw [List.cons.injEq] at heq
          exact q2 heq.2
    | bool b =>
      have hbo : hasBracketedElems (JValue.bool b :: rest) = hasBracketedElems rest := rfl
      rw [hbo] at hb
      have hrw : escapeArrayElems (JValue.bool b :: rest)
          = escapeArrayElems rest >>= fun t => .ok (JValue.bool b :: t) := rfl
      rw [hrw] at hm
      cases ht : escapeArrayElems rest with
      | error e => rw [ht, error_bind] at hm; cases hm
      | ok mt =>
        rw [ht, ok_bind] at hm
        cases hm
        obtain ⟨q1, q2⟩ := ih hb mt ht
        constructor
        · show (hasBracketedValue (JValue.bool b) || hasBracketedElems mt) = true
          rw [q1, Bool.or_true]
        · intro heq
          rw [List.cons.injEq] at heq
          exact q2 heq.2
    | num n =>
      have hbo : hasBracketedElems (JValue.num n :: rest) = hasBracketedElems rest := rfl
      rw [hbo] at hb
      have hrw : escapeArrayElems (JValue.num n :: rest)
          = escapeArrayElems rest >>= fun t => .ok (JValue.num n :: t) := rfl
      rw [hrw] at hm
      cases ht : escapeArrayElems rest with
      | error e => rw [ht, error_bind] at hm; cases hm
      | ok mt =>
        rw [ht, ok_bind] at hm
        cases hm
        obtain ⟨q1, q2⟩ := ih hb mt ht
        constructor
        · show (hasBracketedValue (JValue.num n) || hasBracketedElems mt) = true
          rw [q1, Bool.or_true]
        · intro heq
          rw [List.cons.injEq] at heq
          exact q2 heq.2
  case _ =>
    intro hb
    exact nomatch hb
  case _ =>
    intro name value rest ih2 ih1 hb m hm
    have hrw : escapeEntries ((name, value) :: rest)
        = escapeMapValue value >>= fun v =>
            escapeEntries rest >>= fun t => .ok ((name, v) :: t) := rfl
    rw [hrw] at hm
    cases hv : escapeMapValue value with
    | error e => rw [hv, error_bind] at hm; cases hm
    | ok mv =>
      rw [hv, ok_bind] at hm
      cases ht : escapeEntries rest with
      | error e => rw [ht, error_bind] at hm; cases hm
      | ok mt =>
        rw [ht, ok_bind] at hm
        cases hm
        have hbo : hasBracketedFields ((name, value) :: rest)
            = (hasBracketedValue value || hasBracketedFields rest) := rfl
        rw [hbo, Bool.or_eq_true] at hb
        have hout : hasBracketedFields ((name, mv) :: mt)
            = (hasBracketedValue mv || hasBracketedFields mt) := rfl
        cases hf : hasBracketedValue value with
        | true =>
          obtain ⟨q1, q2⟩ := ih2 hf mv hv
          constructor
          · rw [hout, q1, Bool.true_or]
          · intro heq
            rw [List.cons.injEq, Prod.mk.injEq] at heq
            exact q2 heq.1.2
        | false =>
          have hr : hasBracketedFields rest = true := by
            cases hb with
            | inl h' => rw [hf] at h'; cases h'
            | inr h' => exact h'
          obtain ⟨q1, q2⟩ := ih1 hr mt ht
          constructor
          · rw [hout, q1, Bool.or_true]
          · intro heq
            rw [List.cons.injEq] at heq
            exact q2 heq.2


theorem invoke_error_master (eng : String → Except DscError String) :
    (∀ l : List (String × JValue), ∀ e, invokeEntries eng l = .error e →
      e = nestedArraysErr ∨ ∃ s, eng s = .error e) ∧
    (∀ v : JValue, ∀ e, invokeMapValue eng v = .error e →
      e = nestedArraysErr ∨ ∃ s, eng s = .error e) ∧
    (∀ l : List JValue, ∀ e, invokeArrayElems eng l = .error e →
      e = nestedArraysErr ∨ ∃ s, eng s = .error e) := by
  apply invokeEntries.mutual_induct eng
    (fun l => ∀ e, invokeEntries eng l = .error e →
      e = nestedArraysErr ∨ ∃ s, eng s = .error e)
    (fun v => ∀ e, invokeMapValue eng v = .error e →
      e = nestedArraysErr ∨ ∃ s, eng s = .error e)
    (fun l => ∀ e, invokeArrayElems eng l = .error e →
      e = nestedArraysErr ∨ ∃ s, eng s = .error e)
  case _ =>
    intro object ih e h
    have hrw : invokeMapValue eng (JValue.obj object)
        = invokeEntries eng object >>= fun v => .ok (optionMapToValue (some v)) := rfl
    rw [hrw] at h
    cases hv : invokeEntries eng object with
    | error e' => rw [hv, error_bind] at h; cases h; exact ih _ hv
    | ok v => rw [hv, ok_bind] at h; cases h
  case _ =>
    intro array ih e h
    have hrw : invokeMapValue eng (JValue.arr array)
        = invokeArrayElems eng array >>= fun v => .ok (.arr v) := rfl
    rw [hrw] at h
    cases hv : invokeArrayElems eng array with
    | error e' => rw [hv, error_bind] at h; cases h; exact ih _ hv
    | ok v => rw [hv, ok_bind] at h; cases h
  case _ =>
    intro s hs e h
    simp [asStr] at hs
  case _ =>
    intro s statement hs e h
    simp only [asStr, Option.some.injEq] at hs
    subst hs
    have hrw : invokeMapValue eng (JValue.str s)
        = eng s >>= fun r => .ok (.str r) := rfl
    rw [hrw] at h
    cases hr : eng s with
    | error e' => rw [hr, error_bind] at h; cases h; exact .inr ⟨s, hr⟩
    | ok r => rw [hr, ok_bind] at h; cases h
  case _ =>
    intro value h1 h2 h3 e h
    cases value with
    | obj o => exact absurd rfl (h1 o)
    | arr a => exact absurd rfl (h2 a)
    | str s => exact absurd rfl (h3 s)
    | null => exact nomatch h
    | bool b => exact nomatch h
    | num n => exact nomatch h
  case _ =>
    intro e h
    exact nomatch h
  case _ =>
    intro object rest ih1 ih3 e h
    have hrw : invokeArrayElems eng (JValue.obj object :: rest)
        = invokeEntries eng object >>= fun v =>
            invokeArrayElems eng rest >>= fun t => .ok (optionMapToValue (some v) :: t) := rfl
    rw [hrw] at h
    cases hv : invokeEntries eng object with
    | error e' => rw [hv, error_bind] at h; cases h; exact ih1 _ hv
    | ok v =>
      rw [hv, ok_bind] at h
      cases ht : invokeArrayElems eng rest with
      | error e' => rw [ht, error_bind] at h; cases h; exact ih3 _ ht
      | ok t => rw [ht, ok_bind] at h; cases h
  case _ =>
    intro elems tail e h
    cases h
    exact .inl rfl
  case _ =>
    intro s rest hs e h
    simp [asStr] at hs
  case _ =>
    intro s rest statement hs ih e h
    simp only [asStr, Option.some.injEq] at hs
    subst hs
    have hrw : invokeArrayElems eng (JValue.str s :: rest)
        = eng s >>= fun r => invokeArrayElems eng rest >>= fun t => .ok (.str r :: t) := rfl
    rw [hrw] at h
    cases hr : eng s with
    | error e' => rw [hr, error_bind] at h; cases h; exact .inr ⟨s, hr⟩
    | ok r =>
      rw [hr, ok_bind] at h
      cases ht : invokeArrayElems eng rest with
      | error e' => rw [ht, error_bind] at h; cases h; exact ih _ ht
      | ok t => rw [ht, ok_bind] at h; cases h
  case _ =>
    intro element rest h1 h2 h3 ih e h
    cases element with
    | obj o => exact absurd rfl (h1 o)
    | arr a => exact absurd rfl (h2 a)
    | str s => exact absurd rfl (h3 s)
    | null =>
      have hrw : invokeArrayElems eng (JValue.null :: rest)
          = invokeArrayElems eng rest >>= fun t => .ok (JValue.null :: t) := rfl
      rw [hrw] at h
      cases ht : invokeArrayElems eng rest with
      | error e' => rw [ht, error_bind] at h; cases h; exact ih _ ht
      | ok t => rw [ht, ok_bind] at h; cases h
    | bool b =>
      have hrw : invokeArrayElems eng (JValue.bool b :: rest)
          = invokeArrayElems eng rest >>= fun t => .ok (JValue.bool b :: t) := rfl
      rw [hrw] at h
      cases ht : invokeArrayElems eng rest with
      | error e' => rw [ht, error_bind] at h; cases h; exact ih _ ht
      | ok t => rw [ht, ok_bind] at h; cases h
    | num n =>
      have hrw : invokeArrayElems eng (JValue.num n :: rest)
          = invokeArrayElems eng rest >>= fun t => .ok (JValue.num n :: t) := rfl
      rw [hrw] at h
      cases ht : invokeArrayElems eng rest with
      | error e' => rw [ht, error_bind] at h; cases h; exact ih _ ht
      | ok t => rw [ht, ok_bind] at h; cases h
  case _ =>
    intro e h
    exact nomatch h
  case _ =>
    intro name value rest ih2 ih1 e h
    have hrw : invokeEntries eng ((name, value) :: rest)
        = invokeMapValue eng value >>= fun v =>
            invokeEntries eng rest >>= fun t => .ok ((name, v) :: t) := rfl
    rw [hrw] at h
    cases hv : invokeMapValue eng value with
    | error e' => rw [hv, error_bind] at h; cases h; exact ih2 _ hv
    | ok v =>
      rw [hv, ok_bind] at h
      cases ht : invokeEntries eng rest with
      | error e' => rw [ht, error_bind] at h; cases h; exact ih1 _ ht
      | ok t => rw [ht, ok_bind] at h; cases h


theorem invoke_nested_master (eng : String → Except DscError String)
    (heng : ∀ s, ∃ r, eng s = .ok r) :
    (∀ l : List (String × JValue),
      (hasNestedArrayFields l = false → ∃ m, invokeEntries eng l = .ok m) ∧
      (hasNestedArrayFields l = true → invokeEntries eng l = .error nestedArraysErr)) ∧
    (∀ v : JValue,
      (hasNestedArray v = false → ∃ w, invokeMapValue eng v = .ok w) ∧
      (hasNestedArray v = true → invokeMapValue eng v = .error nestedArraysErr)) ∧
    (∀ l : List JValue,
      (hasNestedArrayElems l = false → ∃ m, invokeArrayElems eng l = .ok m) ∧
      (hasNestedArrayElems l = true → invokeArrayElems eng l = .error nestedArraysErr)) := by
  apply invokeEntries.mutual_induct eng
    (fun l =>
      (hasNestedArrayFields l = false → ∃ m, invokeEntries eng l = .ok m) ∧
      (hasNestedArrayFields l = true → invokeEntries eng l = .error nestedArraysErr))
    (fun v =>
      (hasNestedArray v = false → ∃ w, invokeMapValue eng v = .ok w) ∧
      (hasNestedArray v = true → invokeMapValue eng v = .error nestedArraysErr))
    (fun l =>
      (hasNestedArrayElems l = false → ∃ m, invokeArrayElems eng l = .ok m) ∧
      (hasNestedArrayElems l = true → invokeArrayElems eng l = .error nestedArraysErr))
  case _ =>
    intro object ih
    have hrw : invokeMapValue eng (JValue.obj object)
        = invokeEntries eng object >>= fun v => .ok (optionMapToValue (some v)) := rfl
    constructor
    · intro h
      obtain ⟨m, hm⟩ := ih.1 h
      exact ⟨optionMapToValue (some m), by rw [hrw, hm, ok_bind]⟩
    · intro h
      rw [hrw, ih.2 h, error_bind]
  case _ =>
    intro array ih
    have hrw : invokeMapValue eng (JValue.arr array)
        = invokeArrayElems eng array >>= fun v => .ok (.arr v) := rfl
    constructor
    · intro h
      obtain ⟨m, hm⟩ := ih.1 h
      exact ⟨.arr m, by rw [hrw, hm, ok_bind]⟩
    · intro h
      rw [hrw, ih.2 h, error_bind]
  case _ =>
    intro s hs
    simp [asStr] at hs
  case _ =>
    intro s statement hs
    simp only [asStr, Option.some.injEq] at hs
    subst hs
    have hrw : invokeMapValue eng (JValue.str s)
        = eng s >>= fun r => .ok (.str r) := rfl
    refine ⟨(fun _ => ?_), (fun h => nomatch h)⟩
    obtain ⟨r, hr⟩ := heng s
    exact ⟨.str r, by rw [hrw, hr, ok_bind]⟩
  case _ =>
    intro value h1 h2 h3
    cases value with
    | obj o => exact absurd rfl (h1 o)
    | arr a => exact absurd rfl (h2 a)
    | str s => exact absurd rfl (h3 s)
    | null => exact ⟨(fun _ => ⟨.null, rfl⟩), (fun h => nomatch h)⟩
    | bool b => exact ⟨(fun _ => ⟨.bool b, rfl⟩), (fun h => nomatch h)⟩
    | num n => exact ⟨(fun _ => ⟨.num n, rfl⟩), (fun h => nomatch h)⟩
  case _ =>
    exact ⟨(fun _ => ⟨[], rfl⟩), (fun h => nomatch h)⟩
  case _ =>
    intro object rest ih1 ih3
    have hrw : invokeArrayElems eng (JValue.obj object :: rest)
        = invokeEntries eng object >>= fun v =>
            invokeArrayElems eng rest >>= fun t => .ok (optionMapToValue (some v) :: t) := rfl
    have hh : hasNestedArrayElems (JValue.obj object :: rest)
        = (hasNestedArrayFields object || hasNestedArrayElems rest) := rfl
    constructor
    · intro h
      rw [hh, Bool.or_eq_false_iff] at h
      obtain ⟨m, hm⟩ := ih1.1 h.1
      obtain ⟨t, ht⟩ := ih3.1 h.2
      exact ⟨optionMapToValue (some m) :: t, by rw [hrw, hm, ok_bind, ht, ok_bind]⟩
    · intro h
      rw [hh, Bool.or_eq_true] at h
      cases hf : hasNestedArrayFields object with
      | true => rw [hrw, ih1.2 hf, error_bind]
      | false =>
        obtain ⟨m, hm⟩ := ih1.1 hf
        have hr : hasNestedArrayElems rest = true := by
          cases h with
          | inl h' => rw [hf] at h'; cases h'
          | inr h' => exact h'
        rw [hrw, hm, ok_bind, ih3.2 hr, error_bind]
  case _ =>
    intro elems tail
    exact ⟨(fun h => nomatch h), (fun _ => rfl)⟩
  case _ =>
    intro s rest hs
    simp [asStr] at hs
  case _ =>
    intro s rest statement hs ih
    simp only [asStr, Option.some.injEq] at hs
    subst hs
    have hrw : invokeArrayElems eng (JValue.str s :: rest)
        = eng s >>= fun r => invokeArrayElems eng rest >>= fun t => .ok (.str r :: t) := rfl
    have hh : hasNestedArrayElems (JValue.str s :: rest) = hasNestedArrayElems rest := rfl
    obtain ⟨r, hr⟩ := heng s
    constructor
    · intro h
      rw [hh] at h
      obtain ⟨t, ht⟩ := ih.1 h
      exact ⟨.str r :: t, by rw [hrw, hr, ok_bind, ht, ok_bind]⟩
    · intro h
      rw [hh] at h
      rw [hrw, hr, ok_bind, ih.2 h, error_bind]
  case _ =>
    intro element rest h1 h2 h3 ih
    cases element with
    | obj o => exact absurd rfl (h1 o)
    | arr a => exact absurd rfl (h2 a)
    | str s => exact absurd rfl (h3 s)
    | null =>
      have hrw : invokeArrayElems eng (JValue.null :: rest)
          = invokeArrayElems eng rest >>= fun t => .ok (JValue.null :: t) := rfl
      have hh : hasNestedArrayElems (JValue.null :: rest) = hasNestedArrayElems rest := rfl
      rw [hrw, hh]
      exact ⟨(fun h => (ih.1 h).elim fun t ht => ⟨JValue.null :: t, by rw [ht, ok_bind]⟩),
             (fun h => by rw [ih.2 h, error_bind])⟩
    | bool b =>
      have hrw : invokeArrayElems eng (JValue.bool b :: rest)
          = invokeArrayElems eng rest >>= fun t => .ok (JValue.bool b :: t) := rfl
      have hh : hasNestedArrayElems (JValue.bool b :: rest) = hasNestedArrayElems rest := rfl
      rw [hrw, hh]
      exact ⟨(fun h => (ih.1 h).elim fun t ht => ⟨JValue.bool b :: t, by rw [ht, ok_bind]⟩),
             (fun h => by rw [ih.2 h, error_bind])⟩
    | num n =>
      have hrw : invokeArrayElems eng (JValue.num n :: rest)
          = invokeArrayElems eng rest >>= fun t => .ok (JValue.num n :: t) := rfl
      have hh : hasNestedArrayElems (JValue.num n :: rest) = hasNestedArrayElems rest := rfl
      rw [hrw, hh]
      exact ⟨(fun h => (ih.1 h).elim fun t ht => ⟨JValue.num n :: t, by rw [ht, ok_bind]⟩),
             (fun h => by rw [ih.2 h, error_bind])⟩
  case _ =>
    exact ⟨(fun _ => ⟨[], rfl⟩), (fun h => nomatch h)⟩
  case _ =>
    intro name value rest ih2 ih1
    have hrw : invokeEntries eng ((name, value) :: rest)
        = invokeMapValue eng value >>= fun v =>
            invokeEntries eng rest >>= fun t => .ok ((name, v) :: t) := rfl
    have hh : hasNestedArrayFields ((name, value) :: rest)
        = (hasNestedArray value || hasNestedArrayFields rest) := rfl
    constructor
    · intro h
      rw [hh, Bool.or_eq_false_iff] at h
      obtain ⟨w, hw⟩ := ih2.1 h.1
      obtain ⟨t, ht⟩ := ih1.1 h.2
      exact ⟨(name, w) :: t, by rw [hrw, hw, ok_bind, ht, ok_bind]⟩
    · intro h
      rw [hh, Bool.or_eq_true] at h
      cases hf : hasNestedArray value with
      | true => rw [hrw, ih2.2 hf, error_bind]
      | false =>
        obtain ⟨w, hw⟩ := ih2.1 hf
        have hr : hasNestedArrayFields rest = true := by
          cases h with
          | inl h' => rw [hf] at h'; cases h'
          | inr h' => exact h'
        rw [hrw, hw, ok_bind, ih1.2 hr, error_bind]

theorem invoke_identity_master (evalExpr : String → Except DscError String) :
    (∀ l : List (String × JValue),
      hasBracketedFields l = false → hasNestedArrayFields l = false →
        invokeEntries (specParseAndExecute evalExpr) l = .ok l) ∧
    (∀ v : JValue,
      hasBracketedValue v = false → hasNestedArray v = false →
        invokeMapValue (specParseAndExecute evalExpr) v = .ok v) ∧
    (∀ l : List JValue,
      hasBracketedElems l = false → hasNestedArrayElems l = false →
        invokeArrayElems (specParseAndExecute evalExpr) l = .ok l) := by
  apply invokeEntries.mutual_induct (specParseAndExecute evalExpr)
    (fun l => hasBracketedFields l = false → hasNestedArrayFields l = false →
        invokeEntries (specParseAndExecute evalExpr) l = .ok l)
    (fun v => hasBracketedValue v = false → hasNestedArray v = false →
        invokeMapValue (specParseAndExecute evalExpr) v = .ok v)
    (fun l => hasBracketedElems l = false → hasNestedArrayElems l = false →
        invokeArrayElems (specParseAndExecute evalExpr) l = .ok l)
  case _ =>
    intro object ih hb hn
    have hrw : invokeMapValue (specParseAndExecute evalExpr) (JValue.obj object)
        = invokeEntries (specParseAndExecute evalExpr) object >>= fun v =>
            .ok (optionMapToValue (some v)) := rfl
    rw [hrw, ih hb hn, ok_bind]
    rfl
  case _ =>
    intro array ih hb hn
    have hrw : invokeMapValue (specParseAndExecute evalExpr) (JValue.arr array)
        = invokeArrayElems (specParseAndExecute evalExpr) array >>= fun v => .ok (.arr v) := rfl
    rw [hrw, ih hb hn, ok_bind]
  case _ =>
    intro s hs
    simp [asStr] at hs
  case _ =>
    intro s statement hs hb hn
    simp only [asStr, Option.some.injEq] at hs
    subst hs
    have hbr : bracketed s = false := hb
    have hrw : invokeMapValue (specParseAndExecute evalExpr) (JValue.str s)
        = specParseAndExecute evalExpr s >>= fun r => .ok (.str r) := rfl
    rw [hrw, specParseAndExecute, if_neg (by rw [hbr]; exact Bool.false_ne_true), ok_bind]
  case _ =>
    intro value h1 h2 h3 hb hn
    cases value with
    | obj o => exact absurd rfl (h1 o)
    | arr a => exact absurd rfl (h2 a)
    | str s => exact absurd rfl (h3 s)
    | null => rfl
    | bool b => rfl
    | num n => rfl
  case _ =>
    intro hb hn
    rfl
  case _ =>
    intro object rest ih1 ih3 hb hn
    have hbo : hasBracketedElems (JValue.obj object :: rest)
        = (hasBracketedFields object || hasBracketedElems rest) := rfl
    have hno : hasNestedArrayElems (JValue.obj object :: rest)
        = (hasNestedArrayFields object || hasNestedArrayElems rest) := rfl
    rw [hbo, Bool.or_eq_false_iff] at hb
    rw [hno, Bool.or_eq_false_iff] at hn
    have hrw : invokeArrayElems (specParseAndExecute evalExpr) (JValue.obj object :: rest)
        = invokeEntries (specParseAndExecute evalExpr) object >>= fun v =>
            invokeArrayElems (specParseAndExecute evalExpr) rest >>= fun t =>
              .ok (optionMapToValue (some v) :: t) := rfl
    rw [hrw, ih1 hb.1 hn.1, ok_bind, ih3 hb.2 hn.2, ok_bind]
    rfl
  case _ =>
    intro elems tail hb hn
    exact nomatch hn
  case _ =>
    intro s rest hs
    simp [asStr] at hs
  case _ =>
    intro s rest statement hs ih hb hn
    simp only [asStr, Option.some.injEq] at hs
    subst hs
    have hbo : hasBracketedElems (JValue.str s :: rest)
        = (bracketed s || hasBracketedElems rest) := rfl
    have hno : hasNestedArrayElems (JValue.str s :: rest) = hasNestedArrayElems rest := rfl
    rw [hbo, Bool.or_eq_false_iff] at hb
    rw [hno] at hn
    have hrw : invokeArrayElems (specParseAndExecute evalExpr) (JValue.str s :: rest)
        = specParseAndExecute evalExpr s >>= fun r =>
            invokeArrayElems (specParseAndExecute evalExpr) rest >>= fun t =>
              .ok (.str r :: t) := rfl
    rw [hrw, specParseAndExecute, if_neg (by rw [hb.1]; exact Bool.false_ne_true), ok_bind,
      ih hb.2 hn, ok_bind]
  case _ =>
    intro element rest h1 h2 h3 ih hb hn
    cases element with
    | obj o => exact absurd rfl (h1 o)
    | arr a => exact absurd rfl (h2 a)
    | str s => exact absurd rfl (h3 s)
    | null =>
      have hbo : hasBracketedElems (JValue.null :: rest) = hasBracketedElems rest := rfl
      have hno : hasNestedArrayElems (JValue.null :: rest) = hasNestedArrayElems rest := rfl
      rw [hbo] at hb
      rw [hno] at hn
      have hrw : invokeArrayElems (specParseAndExecute evalExpr) (JValue.null :: rest)
          = invokeArrayElems (specParseAndExecute evalExpr) rest >>= fun t =>
              .ok (JValue.null :: t) := rfl
      rw [hrw, ih hb hn, ok_bind]
    | bool b =>
      have hbo : hasBracketedElems (JValue.bool b :: rest) = hasBracketedElems rest := rfl
      have hno : hasNestedArrayElems (JValue.bool b :: rest) = hasNestedArrayElems rest := rfl
      rw [hbo] at hb
      rw [hno] at hn
      have hrw : invokeArrayElems (specParseAndExecute evalExpr) (JValue.bool b :: rest)
          = invokeArrayElems (specParseAndExecute evalExpr) rest >>= fun t =>
              .ok (JValue.bool b :: t) := rfl
      rw [hrw, ih hb hn, ok_bind]
    | num n =>
      have hbo : hasBracketedElems (JValue.num n :: rest) = hasBracketedElems rest := rfl
      have hno : hasNestedArrayElems (JValue.num n :: rest) = hasNestedArrayElems rest := rfl
      rw [hbo] at hb
      rw [hno] at hn
      have hrw : invokeArrayElems (specParseAndExecute evalExpr) (JValue.num n :: rest)
          = invokeArrayElems (specParseAndExecute evalExpr) rest >>= fun t =>
              .ok (JValue.num n :: t) := rfl
      rw [hrw, ih hb hn, ok_bind]
  case _ =>
    intro hb hn
    rfl
  case _ =>
    intro name value rest ih2 ih1 hb hn
    have hbo : hasBracketedFields ((name, value) :: rest)
        = (hasBracketedValue value || hasBracketedFields rest) := rfl
    have hno : hasNestedArrayFields ((name, value) :: rest)
        = (hasNestedArray value || hasNestedArrayFields rest) := rfl
    rw [hbo, Bool.or_eq_false_iff] at hb
    rw [hno, Bool.or_eq_false_iff] at hn
    have hrw : invokeEntries (specParseAndExecute evalExpr) ((name, value) :: rest)
        = invokeMapValue (specParseAndExecute evalExpr) value >>= fun v =>
            invokeEntries (specParseAndExecute evalExpr) rest >>= fun t => .ok ((name, v) :: t) := rfl
    rw [hrw, ih2 hb.1 hn.1, ok_bind, ih1 hb.2 hn.2, ok_bind]



theorem except_bind_assoc {α β γ : Type} (x : Except DscError α)
    (f : α → Except DscError β) (g : β → Except DscError γ) :
    (x >>= f) >>= g = x >>= fun a => f a >>= g := by
  cases x <;> rfl

theorem escape_pv_unfold (l : List (String × JValue)) :
    escape_property_values l = escapeEntries l >>= fun m => .ok (some m) := rfl

theorem invoke_pe_unfold (engine : String → Except DscError String)
    (l : List (String × JValue)) :
    invoke_property_expressions engine (some l)
      = invokeEntries engine l >>= fun m => .ok (some m) := rfl

theorem escape_pv_ok_iff (l m : List (String × JValue)) :
    escape_property_values l = .ok (some m) ↔ escapeEntries l = .ok m := by
  rw [escape_pv_unfold]
  constructor
  · intro h
    cases hv : escapeEntries l with
    | error e => rw [hv, error_bind] at h; cases h
    | ok m' =>
      rw [hv, ok_bind] at h
      injection h with h'
      injection h' with h''
      rw [h'']
  · intro h
    rw [h, ok_bind]

theorem escape_pv_error_iff (l : List (String × JValue)) (e : DscError) :
    escape_property_values l = .error e ↔ escapeEntries l = .error e := by
  rw [escape_pv_unfold]
  constructor
  · intro h
    cases hv : escapeEntries l with
    | error e' => rw [hv, error_bind] at h; injection h with he; rw [he]
    | ok m' => rw [hv, ok_bind] at h; cases h
  · intro h
    rw [h, error_bind]

theorem invoke_pe_ok_iff (engine : String → Except DscError String)
    (l m : List (String × JValue)) :
    invoke_property_expressions engine (some l) = .ok (some m)
      ↔ invokeEntries engine l = .ok m := by
  rw [invoke_pe_unfold]
  constructor
  · intro h
    cases hv : invokeEntries engine l with
    | error e => rw [hv, error_bind] at h; cases h
    | ok m' =>
      rw [hv, ok_bind] at h
      injection h with h'
      injection h' with h''
      rw [h'']
  · intro h
    rw [h, ok_bind]

theorem invoke_pe_error_iff (engine : String → Except DscError String)
    (l : List (String × JValue)) (e : DscError) :
    invoke_property_expressions engine (some l) = .error e
      ↔ invokeEntries engine l = .error e := by
  rw [invoke_pe_unfold]
  constructor
  · intro h
    cases hv : invokeEntries engine l with
    | error e' => rw [hv, error_bind] at h; injection h with he; rw [he]
    | ok m' => rw [hv, ok_bind] at h; cases h
  · intro h
    rw [h, error_bind]

/-- An engine that marks every string it is given, used to observe which
strings the evaluate-mode walker hands to the expression engine. -/
def markEngine : String → Except DscError String :=
  fun s => .ok ("evaluated:" ++ s)

/-- C1 counterexample: the evaluate-mode walker hands the non-bracketed
string "hello" to the engine (the output carries the engine mark, so the
string was not passed through unchanged), and a property value containing
no bracketed string but a nested array is an error, not a fixed point, in
both modes. -/
theorem C1_counterexample :
    invoke_property_expressions markEngine (some [("k", JValue.str "hello")])
      = .ok (some [("k", JValue.str "evaluated:hello")]) ∧
    invoke_property_expressions markEngine (some [("k", JValue.str "hello")])
      ≠ .ok (some [("k", JValue.str "hello")]) ∧
    escape_property_values [("k", JValue.arr [JValue.arr []])] = .error nestedArraysErr ∧
    invoke_property_expressions markEngine (some [("k", JValue.arr [JValue.arr []])])
      = .error nestedArraysErr := by
  refine ⟨rfl, ?_, rfl, rfl⟩
  intro h
  have h1 : invoke_property_expressions markEngine (some [("k", JValue.str "hello")])
      = .ok (some [("k", JValue.str "evaluated:hello")]) := rfl
  rw [h1] at h
  simp only [Except.ok.injEq, Option.some.injEq, List.cons.injEq, Prod.mk.injEq,
    JValue.str.injEq] at h
  exact absurd h.1.2 (by decide)

/-- C1 (amended): the evaluate-mode walker passes every string value to
the expression engine, bracketed or not; the bracket test lives in the
engine, which per the spec returns any non-bracketed string unchanged.
Under such an engine every non-bracketed string passes through unchanged,
and any property value containing no bracketed string (and no directly
nested array, which is an error in both modes) is left identical by both
walker modes. -/
theorem C1_walker_engine_amended :
    (∀ (engine : String → Except DscError String) (name s : String),
      invoke_property_expressions engine (some [(name, JValue.str s)])
        = engine s >>= fun r => .ok (some [(name, JValue.str r)])) ∧
    (∀ (evalExpr : String → Except DscError String) (props : List (String × JValue)),
      hasBracketedFields props = false → hasNestedArrayFields props = false →
        invoke_property_expressions (specParseAndExecute evalExpr) (some props)
          = .ok (some props) ∧
        escape_property_values props = .ok (some props)) := by
  constructor
  · intro engine name s
    have hrw : invoke_property_expressions engine (some [(name, JValue.str s)])
        = ((engine s >>= fun r => Except.ok (JValue.str r)) >>= fun v =>
            Except.ok [(name, v)]) >>= fun m => Except.ok (some m) := rfl
    rw [hrw, except_bind_assoc, except_bind_assoc]
    cases h : engine s <;> rfl
  · intro evalExpr props hb hn
    refine ⟨?_, ?_⟩
    · exact (invoke_pe_ok_iff _ props props).mpr
        ((invoke_identity_master evalExpr).1 props hb hn)
    · exact (escape_pv_ok_iff props props).mpr (escape_identity_master.1 props hb hn)

/-- C1 witness: the amended claim applied at a concrete engine and a
concrete bracket-free property map. -/
theorem C1_amended_witness :
    invoke_property_expressions (specParseAndExecute markEngine)
        (some [("a", JValue.str "hello"), ("b", JValue.num 3)])
      = .ok (some [("a", JValue.str "hello"), ("b", JValue.num 3)]) ∧
    escape_property_values [("a", JValue.str "hello"), ("b", JValue.num 3)]
      = .ok (some [("a", JValue.str "hello"), ("b", JValue.num 3)]) :=
  C1_walker_engine_amended.2 markEngine
    [("a", JValue.str "hello"), ("b", JValue.num 3)] rfl rfl

/-- C3: the escape walker maps every bracketed string to the same string
with one additional leading bracket, leaves every other string verbatim,
recurses through nested mappings and sequence elements, and transforms the
concrete instance from the spec exactly as stated. -/
theorem C3_escape_shape :
    (∀ s, bracketed s = true →
      escapeMapValue (JValue.str s) = .ok (JValue.str ("[" ++ s))) ∧
    (∀ s, bracketed s = false → escapeMapValue (JValue.str s) = .ok (JValue.str s)) ∧
    (∀ fields, escapeMapValue (JValue.obj fields)
      = escapeEntries fields >>= fun m => .ok (JValue.obj m)) ∧
    (∀ elems, escapeMapValue (JValue.arr elems)
      = escapeArrayElems elems >>= fun m => .ok (JValue.arr m)) ∧
    escape_property_values
        [("cmd", JValue.str "[echo hello]"),
         ("list", JValue.arr [JValue.str "[x]", JValue.str "y"])]
      = .ok (some [("cmd", JValue.str "[[echo hello]"),
                   ("list", JValue.arr [JValue.str "[[x]", JValue.str "y"])]) := by
  refine ⟨?_, ?_, ?_, ?_, rfl⟩
  · intro s hb
    have hrw : escapeMapValue (JValue.str s)
        = if bracketed s then .ok (JValue.str ("[" ++ s)) else .ok (JValue.str s) := rfl
    rw [hrw, if_pos hb]
  · intro s hb
    have hrw : escapeMapValue (JValue.str s)
        = if bracketed s then .ok (JValue.str ("[" ++ s)) else .ok (JValue.str s) := rfl
    rw [hrw, if_neg (by rw [hb]; exact Bool.false_ne_true)]
  · intro fields
    rfl
  · intro elems
    rfl

/-- C3 witness: the string rules applied at concrete bracketed and
non-bracketed strings. -/
theorem C3_witness :
    escapeMapValue (JValue.str "[x]") = .ok (JValue.str "[[x]") ∧
    escapeMapValue (JValue.str "y") = .ok (JValue.str "y") :=
  ⟨C3_escape_shape.1 "[x]" rfl, C3_escape_shape.2.1 "y" rfl⟩

/-- C7: escape is not idempotent. For every property map that contains a
bracketed string and on which the escape walker succeeds, applying the
walker to the result changes it again (each application prepends one
further bracket), so the second application never returns the first
result unchanged. -/
theorem C7_escape_not_idempotent :
    ∀ (props props1 : List (String × JValue)),
      hasBracketedFields props = true →
      escape_property_values props = .ok (some props1) →
      escape_property_values props1 ≠ .ok (some props1) := by
  intro props props1 hb h
  have h1 : escapeEntries props = .ok props1 := (escape_pv_ok_iff props props1).mp h
  have hb1 : hasBracketedFields props1 = true := (escape_growth_master.1 props hb props1 h1).1
  intro h2
  have h3 : escapeEntries props1 = .ok props1 := (escape_pv_ok_iff props1 props1).mp h2
  exact (escape_growth_master.1 props1 hb1 props1 h3).2 rfl

/-- C7 witness: the non-idempotence applied at the concrete map from the
spec scenario; the second escape of "[[echo hello]" would differ. -/
theorem C7_witness :
    escape_property_values [("cmd", JValue.str "[[echo hello]")]
      ≠ .ok (some [("cmd", JValue.str "[[echo hello]")]) :=
  C7_escape_not_idempotent [("cmd", JValue.str "[echo hello]")]
    [("cmd", JValue.str "[[echo hello]")] rfl rfl

/-- C8: in both walker modes a sequence directly containing another
sequence makes the walk fail with the parse error "Nested arrays not
supported" (for the evaluate walker, under an engine that itself
succeeds), and no other value shape produces this error: on property maps
free of directly nested arrays both walks succeed. -/
theorem C8_nested_array_errors :
    (∀ props, hasNestedArrayFields props = true →
      escape_property_values props = .error nestedArraysErr) ∧
    (∀ (engine : String → Except DscError String) props,
      (∀ s, ∃ r, engine s = .ok r) → hasNestedArrayFields props = true →
        invoke_property_expressions engine (some props) = .error nestedArraysErr) ∧
    (∀ props, hasNestedArrayFields props = false →
      ∃ m, escape_property_values props = .ok (some m)) ∧
    (∀ (engine : String → Except DscError String) props,
      (∀ s, ∃ r, engine s = .ok r) → hasNestedArrayFields props = false →
        ∃ m, invoke_property_expressions engine (some props) = .ok (some m)) := by
  refine ⟨?_, ?_, ?_, ?_⟩
  · intro props h
    exact (escape_pv_error_iff props nestedArraysErr).mpr ((escape_nested_master.1 props).2 h)
  · intro engine props heng h
    exact (invoke_pe_error_iff engine props nestedArraysErr).mpr
      (((invoke_nested_master engine heng).1 props).2 h)
  · intro props h
    obtain ⟨m, hm⟩ := (escape_nested_master.1 props).1 h
    exact ⟨m, (escape_pv_ok_iff props m).mpr hm⟩
  · intro engine props heng h
    obtain ⟨m, hm⟩ := ((invoke_nested_master engine heng).1 props).1 h
    exact ⟨m, (invoke_pe_ok_iff engine props m).mpr hm⟩

/-- C8 witness: the nested-array error raised at a concrete array-in-array
property in both modes, and success at a nested-array-free property. -/
theorem C8_witness :
    escape_property_values [("k", JValue.arr [JValue.arr [JValue.num 1]])]
      = .error nestedArraysErr ∧
    invoke_property_expressions markEngine (some [("k", JValue.arr [JValue.arr [JValue.num 1]])])
      = .error nestedArraysErr ∧
    (∃ m, escape_property_values [("k", JValue.arr [JValue.num 1])] = .ok (some m)) :=
  ⟨C8_nested_array_errors.1 [("k", JValue.arr [JValue.arr [JValue.num 1]])] rfl,
   C8_nested_array_errors.2.1 markEngine [("k", JValue.arr [JValue.arr [JValue.num 1]])]
     (fun s => ⟨"evaluated:" ++ s, rfl⟩) rfl,
   C8_nested_array_errors.2.2.1 [("k", JValue.arr [JValue.num 1])] rfl⟩

/-- C10: the "could not be transformed as string" branches are dead code:
the as_str guard always succeeds on a value matched as a JSON string, so
the escape walker can only fail with the nested-array error and the
evaluate walker only with the nested-array error or an error coming from
the engine itself; in particular neither transform-error message is ever
produced by the walkers. -/
theorem C10_transform_guard_dead :
    (∀ s, asStr (JValue.str s) = some s) ∧
    (∀ props e, escape_property_values props = .error e → e = nestedArraysErr) ∧
    (∀ (engine : String → Except DscError String) props e,
      invoke_property_expressions engine (some props) = .error e →
        e = nestedArraysErr ∨ ∃ s, engine s = .error e) ∧
    (∀ s, nestedArraysErr
      ≠ .Parser ("Property value \x27" ++ s ++ "\x27 could not be transformed as string")) ∧
    nestedArraysErr ≠ .Parser "Array element could not be transformed as string" := by
  refine ⟨?_, ?_, ?_, ?_, by decide⟩
  · intro s
    rfl
  · intro props e h
    exact escape_error_master.1 props e ((escape_pv_error_iff props e).mp h)
  · intro engine props e h
    exact (invoke_error_master engine).1 props e ((invoke_pe_error_iff engine props e).mp h)
  · intro s h
    injection h with hm
    have hd := congrArg String.data hm
    rw [String.data_append, String.data_append] at hd
    simp at hd

/-- C10 witness: the guard and the error characterizations applied at
concrete inputs. -/
theorem C10_witness :
    asStr (JValue.str "hello") = some "hello" ∧
    DscError.Parser "Nested arrays not supported" = nestedArraysErr ∧
    (nestedArraysErr = nestedArraysErr ∨ ∃ s, markEngine s = .error nestedArraysErr) :=
  ⟨C10_transform_guard_dead.1 "hello",
   C10_transform_guard_dead.2.1 [("k", JValue.arr [JValue.arr []])]
     (DscError.Parser "Nested arrays not supported") rfl,
   C10_transform_guard_dead.2.2.1 markEngine [("k", JValue.arr [JValue.arr []])]
     nestedArraysErr rfl⟩



theorem invokeGetLoop_names (find_resource : String → Option DscResourceModel)
    (engine : String → Context → Except DscError String)
    (to_json : Option (List (String × JValue)) → String) (ctx : Context) :
    ∀ (order : List Resource) (res : List ResourceGetResult),
      invokeGetLoop find_resource engine to_json ctx order = .ok res →
      res.map (fun r => (r.name, r.resource_type))
        = order.map (fun r => (r.name, r.resource_type))
  | [], res => by
    intro h
    injection h with h'
    rw [← h']
    rfl
  | resource :: rest, res => by
    intro h
    have hrw : invokeGetLoop find_resource engine to_json ctx (resource :: rest)
        = invoke_property_expressions (fun s => engine s ctx) resource.properties >>=
            fun properties =>
          match find_resource (strToLower resource.resource_type) with
          | none => .error (.ResourceNotFound resource.resource_type)
          | some dsc_resource =>
            dsc_resource.getFn (to_json properties) >>= fun get_result =>
              invokeGetLoop find_resource engine to_json ctx rest >>= fun tail =>
                .ok ({ name := resource.name
                       resource_type := resource.resource_type
                       result := get_result } :: tail) := rfl
    rw [hrw] at h
    cases hp : invoke_property_expressions (fun s => engine s ctx) resource.properties with
    | error e => rw [hp, error_bind] at h; cases h
    | ok properties =>
      rw [hp, ok_bind] at h
      cases hf : find_resource (strToLower resource.resource_type) with
      | none => simp only [hf] at h; exact nomatch h
      | some dsc_resource =>
        simp only [hf] at h
        cases hg : dsc_resource.getFn (to_json properties) with
        | error e => rw [hg, error_bind] at h; cases h
        | ok get_result =>
          rw [hg, ok_bind] at h
          cases ht : invokeGetLoop find_resource engine to_json ctx rest with
          | error e => rw [ht, error_bind] at h; cases h
          | ok tail =>
            rw [ht, ok_bind] at h
            injection h with h'
            rw [← h', List.map_cons, List.map_cons,
              invokeGetLoop_names find_resource engine to_json ctx rest tail ht]

theorem invokeSetLoop_names (skip_test : Bool)
    (find_resource : String → Option DscResourceModel)
    (engine : String → Context → Except DscError String)
    (to_json : Option (List (String × JValue)) → String) (ctx : Context) :
    ∀ (order : List Resource) (res : List ResourceSetResult),
      invokeSetLoop skip_test find_resource engine to_json ctx order = .ok res →
      res.map (fun r => (r.name, r.resource_type))
        = order.map (fun r => (r.name, r.resource_type))
  | [], res => by
    intro h
    injection h with h'
    rw [← h']
    rfl
  | resource :: rest, res => by
    intro h
    have hrw : invokeSetLoop skip_test find_resource engine to_json ctx (resource :: rest)
        = invoke_property_expressions (fun s => engine s ctx) resource.properties >>=
            fun properties =>
          match find_resource (strToLower resource.resource_type) with
          | none => .error (.ResourceNotFound resource.resource_type)
          | some dsc_resource =>
            dsc_resource.setFn (to_json properties) skip_test >>= fun set_result =>
              invokeSetLoop skip_test find_resource engine to_json ctx rest >>= fun tail =>
                .ok ({ name := resource.name
                       resource_type := resource.resource_type
                       result := set_result } :: tail) := rfl
    rw [hrw] at h
    cases hp : invoke_property_expressions (fun s => engine s ctx) resource.properties with
    | error e => rw [hp, error_bind] at h; cases h
    | ok properties =>
      rw [hp, ok_bind] at h
      cases hf : find_resource (strToLower resource.resource_type) with
      | none => simp only [hf] at h; exact nomatch h
      | some dsc_resource =>
        simp only [hf] at h
        cases hg : dsc_resource.setFn (to_json properties) skip_test with
        | error e => rw [hg, error_bind] at h; cases h
        | ok set_result =>
          rw [hg, ok_bind] at h
          cases ht : invokeSetLoop skip_test find_resource engine to_json ctx rest with
          | error e => rw [ht, error_bind] at h; cases h
          | ok tail =>
            rw [ht, ok_bind] at h
            injection h with h'
            rw [← h', List.map_cons, List.map_cons,
              invokeSetLoop_names skip_test find_resource engine to_json ctx rest tail ht]

theorem invokeTestLoop_names (find_resource : String → Option DscResourceModel)
    (engine : String → Context → Except DscError String)
    (to_json : Option (List (String × JValue)) → String) (ctx : Context) :
    ∀ (order : List Resource) (res : List ResourceTestResult),
      invokeTestLoop find_resource engine to_json ctx order = .ok res →
      res.map (fun r => (r.name, r.resource_type))
        = order.map (fun r => (r.name, r.resource_type))
  | [], res => by
    intro h
    injection h with h'
    rw [← h']
    rfl
  | resource :: rest, res => by
    intro h
    have hrw : invokeTestLoop find_resource engine to_json ctx (resource :: rest)
        = invoke_property_expressions (fun s => engine s ctx) resource.properties >>=
            fun properties =>
          match find_resource (strToLower resource.resource_type) with
          | none => .error (.ResourceNotFound resource.resource_type)
          | some dsc_resource =>
            dsc_resource.testFn (to_json properties) >>= fun test_result =>
              invokeTestLoop find_resource engine to_json ctx rest >>= fun tail =>
                .ok ({ name := resource.name
                       resource_type := resource.resource_type
                       result := test_result } :: tail) := rfl
    rw [hrw] at h
    cases hp : invoke_property_expressions (fun s => engine s ctx) resource.properties with
    | error e => rw [hp, error_bind] at h; cases h
    | ok properties =>
      rw [hp, ok_bind] at h
      cases hf : find_resource (strToLower resource.resource_type) with
      | none => simp only [hf] at h; exact nomatch h
      | some dsc_resource =>
        simp only [hf] at h
        cases hg : dsc_resource.testFn (to_json properties) with
        | error e => rw [hg, error_bind] at h; cases h
        | ok test_result =>
          rw [hg, ok_bind] at h
          cases ht : invokeTestLoop find_resource engine to_json ctx rest with
          | error e => rw [ht, error_bind] at h; cases h
          | ok tail =>
            rw [ht, ok_bind] at h
            injection h with h'
            rw [← h', List.map_cons, List.map_cons,
              invokeTestLoop_names find_resource engine to_json ctx rest tail ht]

/-- A provider used in concrete runs: get returns a fixed payload. -/
def exProvider : DscResourceModel :=
  { type_name := "Test/Echo"
    getFn := fun _ => .ok (.str "payload")
    setFn := fun _ _ => .ok (.str "payload")
    testFn := fun _ => .ok (.str "payload")
    exportFn := fun _ => .ok { actual_state := [] } }

/-- A discovery lookup knowing only the provider above. -/
def exFind : String → Option DscResourceModel :=
  fun t => if t == "test/echo" then some exProvider else none

/-- The invocation order used in concrete runs: document order. -/
def exOrder : Configuration → Context → Except DscError (List Resource) :=
  fun c _ => .ok c.resources

/-- A trivial serialization used in concrete runs. -/
def exToJson : Option (List (String × JValue)) → String := fun _ => ""

/-- An engine that returns every statement unchanged. -/
def exEngine : String → Context → Except DscError String := fun s _ => .ok s

/-- The empty evaluation context. -/
def emptyContext : Context := { parameters := [], resources := [] }

/-- A one-resource configuration for the concrete runs. -/
def exConfig : Configuration :=
  { parameters := none, resources := [{ name := "r1", resource_type := "Test/Echo" }] }

/-- C2 counterexample: after resource r1 completes its get successfully,
the evaluation context is still the empty context it started as — it
contains no entry keyed "r1" with the provider payload, contradicting the
claimed invariant. The same configurator state is returned by set and
test. -/
theorem C2_counterexample :
    invoke_get exOrder exFind exEngine exToJson emptyContext exConfig
      = .ok ([{ name := "r1", resource_type := "Test/Echo", result := .str "payload" }],
             emptyContext) ∧
    invoke_set true exOrder exFind exEngine exToJson emptyContext exConfig
      = .ok ([{ name := "r1", resource_type := "Test/Echo", result := .str "payload" }],
             emptyContext) ∧
    invoke_test exOrder exFind exEngine exToJson emptyContext exConfig
      = .ok ([{ name := "r1", resource_type := "Test/Echo", result := .str "payload" }],
             emptyContext) ∧
    List.lookup "r1" emptyContext.resources = none :=
  ⟨rfl, rfl, rfl, rfl⟩

/-- C2 (amended): for get, set and test, every successfully completed
resource contributes one result record carrying its name, its type and the
provider payload, in invocation order, to the aggregate — but the
evaluation context receives no entry for it: the context after the run is
exactly the context before it. -/
theorem C2_context_unchanged_amended :
    ∀ (order_fn : Configuration → Context → Except DscError (List Resource))
      (find_resource : String → Option DscResourceModel)
      (engine : String → Context → Except DscError String)
      (to_json : Option (List (String × JValue)) → String)
      (ctx : Context) (config : Configuration),
    (∀ res ctx2, invoke_get order_fn find_resource engine to_json ctx config = .ok (res, ctx2) →
      ctx2 = ctx ∧ ∀ order, order_fn config ctx = .ok order →
        res.map (fun r => (r.name, r.resource_type))
          = order.map (fun r => (r.name, r.resource_type))) ∧
    (∀ skip_test res ctx2,
      invoke_set skip_test order_fn find_resource engine to_json ctx config = .ok (res, ctx2) →
      ctx2 = ctx ∧ ∀ order, order_fn config ctx = .ok order →
        res.map (fun r => (r.name, r.resource_type))
          = order.map (fun r => (r.name, r.resource_type))) ∧
    (∀ res ctx2, invoke_test order_fn find_resource engine to_json ctx config = .ok (res, ctx2) →
      ctx2 = ctx ∧ ∀ order, order_fn config ctx = .ok order →
        res.map (fun r => (r.name, r.resource_type))
          = order.map (fun r => (r.name, r.resource_type))) := by
  intro order_fn find_resource engine to_json ctx config
  refine ⟨?_, ?_, ?_⟩
  · intro res ctx2 h
    have hrw : invoke_get order_fn find_resource engine to_json ctx config
        = order_fn config ctx >>= fun order =>
            invokeGetLoop find_resource engine to_json ctx order >>= fun results =>
              .ok (results, ctx) := rfl
    rw [hrw] at h
    cases ho : order_fn config ctx with
    | error e => rw [ho, error_bind] at h; cases h
    | ok order =>
      rw [ho, ok_bind] at h
      cases hl : invokeGetLoop find_resource engine to_json ctx order with
      | error e => rw [hl, error_bind] at h; cases h
      | ok results =>
        rw [hl, ok_bind] at h
        injection h with h'
        injection h' with h1 h2
        refine ⟨h2.symm, ?_⟩
        intro order' ho'
        injection ho' with ho''
        rw [← ho'', ← h1]
        exact invokeGetLoop_names find_resource engine to_json ctx order results hl
  · intro skip_test res ctx2 h
    have hrw : invoke_set skip_test order_fn find_resource engine to_json ctx config
        = order_fn config ctx >>= fun order =>
            invokeSetLoop skip_test find_resource engine to_json ctx order >>= fun results =>
              .ok (results, ctx) := rfl
    rw [hrw] at h
    cases ho : order_fn config ctx with
    | error e => rw [ho, error_bind] at h; cases h
    | ok order =>
      rw [ho, ok_bind] at h
      cases hl : invokeSetLoop skip_test find_resource engine to_json ctx order with
      | error e => rw [hl, error_bind] at h; cases h
      | ok results =>
        rw [hl, ok_bind] at h
        injection h with h'
        injection h' with h1 h2
        refine ⟨h2.symm, ?_⟩
        intro order' ho'
        injection ho' with ho''
        rw [← ho'', ← h1]
        exact invokeSetLoop_names skip_test find_resource engine to_json ctx order results hl
  · intro res ctx2 h
    have hrw : invoke_test order_fn find_resource engine to_json ctx config
        = order_fn config ctx >>= fun order =>
            invokeTestLoop find_resource engine to_json ctx order >>= fun results =>
              .ok (results, ctx) := rfl
    rw [hrw] at h
    cases ho : order_fn config ctx with
    | error e => rw [ho, error_bind] at h; cases h
    | ok order =>
      rw [ho, ok_bind] at h
      cases hl : invokeTestLoop find_resource engine to_json ctx order with
      | error e => rw [hl, error_bind] at h; cases h
      | ok results =>
        rw [hl, ok_bind] at h
        injection h with h'
        injection h' with h1 h2
        refine ⟨h2.symm, ?_⟩
        intro order' ho'
        injection ho' with ho''
        rw [← ho'', ← h1]
        exact invokeTestLoop_names find_resource engine to_json ctx order results hl

/-- C2 witness: the amended statement applied to the concrete one-resource
get run. -/
theorem C2_amended_witness :
    emptyContext = emptyContext ∧
    ∀ order, exOrder exConfig emptyContext = .ok order →
      List.map (fun r => (r.name, r.resource_type))
          [({ name := "r1", resource_type := "Test/Echo",
              result := JValue.str "payload" } : ResourceGetResult)]
        = order.map (fun r => (r.name, r.resource_type)) :=
  (C2_context_unchanged_amended exOrder exFind exEngine exToJson emptyContext exConfig).1
    [{ name := "r1", resource_type := "Test/Echo", result := .str "payload" }]
    emptyContext rfl



/-- Folding the input parameters into the context, one insert per entry:
the state the binding loop builds as it walks the input. -/
def applyParams (input : List (String × JValue)) (ctx : Context) : Context :=
  input.foldl (fun c p => { c with parameters := mapInsert c.parameters p.1 p.2 }) ctx

/-- One input entry passes the whole per-parameter pipeline: a declaration
exists and all three constraint checks and the type-shape check succeed. -/
def entryOk (decls : List (String × ParameterDecl)) (p : String × JValue) : Prop :=
  ∃ c, List.lookup p.1 decls = some c ∧
    check_length p.1 p.2 c = .ok () ∧
    check_allowed_values p.1 p.2 c = .ok () ∧
    check_number_limits p.1 p.2 c = .ok () ∧
    checkParameterType p.1 p.2 c.parameter_type = .ok ()

theorem applyParams_cons (p : String × JValue) (ps : List (String × JValue)) (ctx : Context) :
    applyParams (p :: ps) ctx
      = applyParams ps { ctx with parameters := mapInsert ctx.parameters p.1 p.2 } := rfl

theorem lookup_map_replace (k : String) (v : JValue) :
    ∀ (m : List (String × JValue)), List.any m (fun p => p.1 == k) = true →
      List.lookup k (m.map (fun p => if p.1 == k then (k, v) else p)) = some v
  | [], h => nomatch h
  | head :: tail, h => by
    rw [List.any_cons, Bool.or_eq_true] at h
    rw [List.map_cons]
    cases hk : head.1 == k with
    | true =>
      have e1 : (if (true = true) then (k, v) else head) = (k, v) := rfl
      rw [e1, List.lookup_cons]
      simp [beq_self_eq_true]
    | false =>
      have h2 : List.any tail (fun p => p.1 == k) = true := by
        cases h with
        | inl h' => rw [hk] at h'; cases h'
        | inr h' => exact h'
      have e1 : (if (false = true) then (k, v) else head) = head := rfl
      rw [e1, List.lookup_cons]
      have hkk : (k == head.1) = false := by
        cases hx : k == head.1 with
        | false => rfl
        | true =>
          rw [beq_iff_eq] at hx
          rw [hx, beq_self_eq_true] at hk
          cases hk
      simp only [hkk]
      exact lookup_map_replace k v tail h2

theorem lookup_append_self (k : String) (v : JValue) :
    ∀ (m : List (String × JValue)), List.any m (fun p => p.1 == k) = false →
      List.lookup k (m ++ [(k, v)]) = some v
  | [], _ => by simp [List.lookup_cons, beq_self_eq_true]
  | head :: tail, h => by
    rw [List.any_cons, Bool.or_eq_false_iff] at h
    rw [List.cons_append, List.lookup_cons]
    have hkk : (k == head.1) = false := by
      cases hx : k == head.1 with
      | false => rfl
      | true =>
        rw [beq_iff_eq] at hx
        rw [hx, beq_self_eq_true] at h
        exact absurd h.1 (by simp)
    simp only [hkk]
    exact lookup_append_self k v tail h.2

theorem lookup_mapInsert_self (m : List (String × JValue)) (k : String) (v : JValue) :
    List.lookup k (mapInsert m k v) = some v := by
  unfold mapInsert
  cases hany : List.any m (fun p => p.1 == k) with
  | true =>
    rw [if_pos rfl]
    exact lookup_map_replace k v m hany
  | false =>
    rw [if_neg Bool.false_ne_true]
    exact lookup_append_self k v m hany

theorem lookup_map_replace_ne (k : String) (v : JValue) (k' : String)
    (hne : (k' == k) = false) :
    ∀ (m : List (String × JValue)),
      List.lookup k' (m.map (fun p => if p.1 == k then (k, v) else p)) = List.lookup k' m
  | [] => rfl
  | head :: tail => by
    rw [List.map_cons]
    cases hk : head.1 == k with
    | true =>
      have e1 : (if (true = true) then (k, v) else head) = (k, v) := rfl
      rw [beq_iff_eq] at hk
      rw [e1, List.lookup_cons, List.lookup_cons, hk]
      simp only [hne]
      exact lookup_map_replace_ne k v k' hne tail
    | false =>
      have e1 : (if (false = true) then (k, v) else head) = head := rfl
      rw [e1, List.lookup_cons, List.lookup_cons]
      cases hx : k' == head.1 with
      | true => rfl
      | false => exact lookup_map_replace_ne k v k' hne tail

theorem lookup_append_ne (k : String) (v : JValue) (k' : String)
    (hne : (k' == k) = false) :
    ∀ (m : List (String × JValue)),
      List.lookup k' (m ++ [(k, v)]) = List.lookup k' m
  | [] => by
    rw [List.nil_append, List.lookup_cons]
    simp only [hne]
  | head :: tail => by
    rw [List.cons_append, List.lookup_cons, List.lookup_cons]
    cases hx : k' == head.1 with
    | true => rfl
    | false => exact lookup_append_ne k v k' hne tail

theorem lookup_mapInsert_ne (m : List (String × JValue)) (k : String) (v : JValue)
    (k' : String) (hne : (k' == k) = false) :
    List.lookup k' (mapInsert m k v) = List.lookup k' m := by
  unfold mapInsert
  cases hany : List.any m (fun p => p.1 == k) with
  | true =>
    rw [if_pos rfl]
    exact lookup_map_replace_ne k v k' hne m
  | false =>
    rw [if_neg Bool.false_ne_true]
    exact lookup_append_ne k v k' hne m

theorem lookup_mapInsert_isSome (m : List (String × JValue)) (k : String) (v : JValue)
    (k' : String) (h : (List.lookup k' m).isSome = true) :
    (List.lookup k' (mapInsert m k v)).isSome = true := by
  cases hx : k' == k with
  | true =>
    rw [beq_iff_eq] at hx
    rw [hx, lookup_mapInsert_self]
    rfl
  | false =>
    rw [lookup_mapInsert_ne m k v k' hx]
    exact h

theorem applyParams_isSome :
    ∀ (ps : List (String × JValue)) (ctx : Context) (k : String),
      (List.lookup k ctx.parameters).isSome = true →
      (List.lookup k (applyParams ps ctx).parameters).isSome = true
  | [], ctx, k, h => h
  | p :: ps, ctx, k, h => by
    rw [applyParams_cons]
    exact applyParams_isSome ps _ k (lookup_mapInsert_isSome ctx.parameters p.1 p.2 k h)

theorem applyParams_lookup_not_mem :
    ∀ (ps : List (String × JValue)) (ctx : Context) (k : String),
      (∀ p, p ∈ ps → (k == p.1) = false) →
      List.lookup k (applyParams ps ctx).parameters = List.lookup k ctx.parameters
  | [], ctx, k, _ => rfl
  | p :: ps, ctx, k, h => by
    rw [applyParams_cons,
      applyParams_lookup_not_mem ps _ k (fun q hq => h q (List.mem_cons_of_mem p hq))]
    exact lookup_mapInsert_ne ctx.parameters p.1 p.2 k (h p (List.mem_cons_self p ps))

theorem applyParams_lookup_nodup :
    ∀ (ps : List (String × JValue)) (ctx : Context) (name : String) (value : JValue),
      (ps.map Prod.fst).Nodup → (name, value) ∈ ps →
      List.lookup name (applyParams ps ctx).parameters = some value
  | [], _, name, value, _, hmem => absurd hmem (List.not_mem_nil (name, value))
  | p :: ps, ctx, name, value, hnd, hmem => by
    rw [List.map_cons, List.nodup_cons] at hnd
    rw [applyParams_cons]
    cases List.mem_cons.mp hmem with
    | inl h' =>
      subst h'
      rw [applyParams_lookup_not_mem ps _ name (fun q hq => by
        cases hx : name == q.1 with
        | false => rfl
        | true =>
          rw [beq_iff_eq] at hx
          refine absurd ?_ hnd.1
          show name ∈ List.map Prod.fst ps
          rw [hx]
          exact List.mem_map_of_mem Prod.fst hq)]
      exact lookup_mapInsert_self ctx.parameters name value
    | inr h' =>
      exact applyParams_lookup_nodup ps _ name value hnd.2 h'

theorem setParametersLoop_missing (decls : List (String × ParameterDecl)) :
    ∀ (params : List (String × JValue)) (ctx : Context) (name : String) (value : JValue),
      (name, value) ∈ params → List.lookup name decls = none →
      ∃ e, (setParametersLoop decls params ctx).2 = .error e
  | [], _, name, value, hmem, _ => absurd hmem (List.not_mem_nil (name, value))
  | (m, w) :: rest, ctx, name, value, hmem, hnone => by
    cases hl : List.lookup m decls with
    | none =>
      refine ⟨.Validation ("Parameter \x27" ++ m ++ "\x27 not defined in configuration"), ?_⟩
      simp only [setParametersLoop, hl]
    | some c =>
      have hmem' : (name, value) ∈ rest := by
        cases List.mem_cons.mp hmem with
        | inl h' =>
          injection h' with h1 h2
          rw [h1] at hnone
          rw [hnone] at hl
          cases hl
        | inr h' => exact h'
      cases hc1 : check_length m w c with
      | error e => exact ⟨e, by simp only [setParametersLoop, hl, hc1]⟩
      | ok u =>
        cases hc2 : check_allowed_values m w c with
        | error e => exact ⟨e, by simp only [setParametersLoop, hl, hc1, hc2]⟩
        | ok u2 =>
          cases hc3 : check_number_limits m w c with
          | error e => exact ⟨e, by simp only [setParametersLoop, hl, hc1, hc2, hc3]⟩
          | ok u3 =>
            cases hc4 : checkParameterType m w c.parameter_type with
            | error e => exact ⟨e, by simp only [setParametersLoop, hl, hc1, hc2, hc3, hc4]⟩
            | ok u4 =>
              obtain ⟨e, he⟩ := setParametersLoop_missing decls rest
                { ctx with parameters := mapInsert ctx.parameters m w } name value hmem' hnone
              refine ⟨e, ?_⟩
              simp only [setParametersLoop, hl, hc1, hc2, hc3, hc4]
              exact he

theorem setParametersLoop_prefix (decls : List (String × ParameterDecl)) :
    ∀ (params : List (String × JValue)) (ctx : Context),
      ∃ pre post, params = pre ++ post ∧
        (setParametersLoop decls params ctx).1 = applyParams pre ctx ∧
        ((setParametersLoop decls params ctx).2 = .ok () → post = []) ∧
        (∀ p, p ∈ pre → entryOk decls p)
  | [], ctx =>
    ⟨[], [], rfl, rfl, fun _ => rfl, fun p hp => absurd hp (List.not_mem_nil p)⟩
  | (name, value) :: rest, ctx => by
    cases hl : List.lookup name decls with
    | none =>
      refine ⟨[], (name, value) :: rest, rfl, ?_, ?_, fun p hp => absurd hp (List.not_mem_nil p)⟩
      · simp only [setParametersLoop, hl]
        rfl
      · simp only [setParametersLoop, hl]
        intro hok
        cases hok
    | some c =>
      cases hc1 : check_length name value c with
      | error e =>
        refine ⟨[], (name, value) :: rest, rfl, ?_, ?_, fun p hp => absurd hp (List.not_mem_nil p)⟩
        · simp only [setParametersLoop, hl, hc1]
          rfl
        · simp only [setParametersLoop, hl, hc1]
          intro hok
          cases hok
      | ok u =>
        cases hc2 : check_allowed_values name value c with
        | error e =>
          refine ⟨[], (name, value) :: rest, rfl, ?_, ?_,
            fun p hp => absurd hp (List.not_mem_nil p)⟩
          · simp only [setParametersLoop, hl, hc1, hc2]
            rfl
          · simp only [setParametersLoop, hl, hc1, hc2]
            intro hok
            cases hok
        | ok u2 =>
          cases hc3 : check_number_limits name value c with
          | error e =>
            refine ⟨[], (name, value) :: rest, rfl, ?_, ?_,
              fun p hp => absurd hp (List.not_mem_nil p)⟩
            · simp only [setParametersLoop, hl, hc1, hc2, hc3]
              rfl
            · simp only [setParametersLoop, hl, hc1, hc2, hc3]
              intro hok
              cases hok
          | ok u3 =>
            cases hc4 : checkParameterType name value c.parameter_type with
            | error e =>
              refine ⟨[], (name, value) :: rest, rfl, ?_, ?_,
                fun p hp => absurd hp (List.not_mem_nil p)⟩
              · simp only [setParametersLoop, hl, hc1, hc2, hc3, hc4]
                rfl
              · simp only [setParametersLoop, hl, hc1, hc2, hc3, hc4]
                intro hok
                cases hok
            | ok u4 =>
              obtain ⟨pre, post, heq, hfst, hok, hpre⟩ := setParametersLoop_prefix decls rest
                { ctx with parameters := mapInsert ctx.parameters name value }
              refine ⟨(name, value) :: pre, post, by rw [List.cons_append, ← heq], ?_, ?_, ?_⟩
              · simp only [setParametersLoop, hl, hc1, hc2, hc3, hc4]
                rw [applyParams_cons]
                exact hfst
              · simp only [setParametersLoop, hl, hc1, hc2, hc3, hc4]
                exact hok
              · intro p hp
                cases List.mem_cons.mp hp with
                | inl h' =>
                  rw [h']
                  exact ⟨c, hl, hc1, hc2, hc3, hc4⟩
                | inr h' => exact hpre p h'

/-- C4: parameter binding. With an input document but no declarations the
exact error "No parameters defined in configuration" is returned; with
declarations, defaults are bound first; an input name without a
declaration is a validation error; and on success every input entry passed
the three constraint checks and the type-shape check and its value sits in
the context, overriding any default. -/
theorem C4_set_parameters_binding :
    (∀ ctx config params, config.parameters = none →
      set_parameters ctx config (some params)
        = (ctx, .error (.Validation "No parameters defined in configuration"))) ∧
    (∀ ctx config decls, config.parameters = some decls →
      set_parameters ctx config none = (insertDefaults decls ctx, .ok ())) ∧
    (∀ ctx config decls params name value, config.parameters = some decls →
      (name, value) ∈ params → List.lookup name decls = none →
      ∃ e, (set_parameters ctx config (some params)).2 = .error e) ∧
    (∀ ctx config decls params ctx2, config.parameters = some decls →
      set_parameters ctx config (some params) = (ctx2, .ok ()) →
      (∀ p, p ∈ params → entryOk decls p) ∧
      ((params.map Prod.fst).Nodup →
        ∀ name value, (name, value) ∈ params →
          List.lookup name ctx2.parameters = some value)) := by
  refine ⟨?_, ?_, ?_, ?_⟩
  · intro ctx config params hnone
    simp only [set_parameters, hnone]
  · intro ctx config decls hsome
    simp only [set_parameters, hsome]
  · intro ctx config decls params name value hsome hmem hl
    have hrw : set_parameters ctx config (some params)
        = setParametersLoop decls params (insertDefaults decls ctx) := by
      simp only [set_parameters, hsome]
    rw [hrw]
    exact setParametersLoop_missing decls params (insertDefaults decls ctx) name value hmem hl
  · intro ctx config decls params ctx2 hsome h
    have hrw : set_parameters ctx config (some params)
        = setParametersLoop decls params (insertDefaults decls ctx) := by
      simp only [set_parameters, hsome]
    rw [hrw] at h
    obtain ⟨pre, post, heq, hfst, hok, hpre⟩ :=
      setParametersLoop_prefix decls params (insertDefaults decls ctx)
    have h2 : (setParametersLoop decls params (insertDefaults decls ctx)).2 = .ok () := by
      rw [h]
    have hpost : post = [] := hok h2
    have hpre' : params = pre := by rw [heq, hpost, List.append_nil]
    have hctx2 : ctx2 = applyParams params (insertDefaults decls ctx) := by
      have h1 : (setParametersLoop decls params (insertDefaults decls ctx)).1 = ctx2 := by
        rw [h]
      rw [← h1, hfst, hpre']
    constructor
    · intro p hp
      exact hpre p (hpre' ▸ hp)
    · intro hnd name value hmem
      rw [hctx2]
      exact applyParams_lookup_nodup params (insertDefaults decls ctx) name value hnd hmem

/-- The declaration of the mode parameter from the spec scenario:
type string with allowedValues [a, b]. -/
def modeDecl : ParameterDecl :=
  { parameter_type := DataType.string
    allowed_values := some [JValue.str "a", JValue.str "b"] }

/-- A configuration declaring only the mode parameter. -/
def modeConfig : Configuration :=
  { parameters := some [("mode", modeDecl)], resources := [] }

/-- C4 witness: the binding applied at the spec scenario — declaration
mode with allowedValues [a, b] and input mode = b: the binding succeeds,
the checks pass and the context holds mode = b. -/
theorem C4_witness :
    (∀ p, p ∈ [("mode", JValue.str "b")] → entryOk [("mode", modeDecl)] p) ∧
    ((List.map Prod.fst [("mode", JValue.str "b")]).Nodup →
      ∀ name value, (name, value) ∈ [("mode", JValue.str "b")] →
        List.lookup name
          (Context.parameters { parameters := [("mode", JValue.str "b")], resources := [] })
          = some value) :=
  C4_set_parameters_binding.2.2.2 emptyContext modeConfig [("mode", modeDecl)]
    [("mode", JValue.str "b")]
    { parameters := [("mode", JValue.str "b")], resources := [] }
    rfl rfl

/-- C9: set_parameters is not atomic on error. The declared defaults are
all bound before any input entry is examined, and the binding loop commits
each successfully validated input entry to the context as it goes, so the
returned context is the defaults-extended context further extended with
exactly the prefix of the input before the failing entry; every default
key is still present in it. -/
theorem C9_set_parameters_not_atomic :
    ∀ ctx config decls params, config.parameters = some decls →
      ∃ pre post, params = pre ++ post ∧
        (set_parameters ctx config (some params)).1
          = applyParams pre (insertDefaults decls ctx) ∧
        ((set_parameters ctx config (some params)).2 = .ok () → post = []) ∧
        (∀ p, p ∈ pre → entryOk decls p) ∧
        (∀ k, (List.lookup k (insertDefaults decls ctx).parameters).isSome = true →
          (List.lookup k ((set_parameters ctx config (some params)).1).parameters).isSome
            = true) := by
  intro ctx config decls params hsome
  have hrw : set_parameters ctx config (some params)
      = setParametersLoop decls params (insertDefaults decls ctx) := by
    simp only [set_parameters, hsome]
  obtain ⟨pre, post, heq, hfst, hok, hpre⟩ :=
    setParametersLoop_prefix decls params (insertDefaults decls ctx)
  refine ⟨pre, post, heq, ?_, ?_, hpre, ?_⟩
  · rw [hrw]
    exact hfst
  · rw [hrw]
    exact hok
  · intro k hk
    rw [hrw, hfst]
    exact applyParams_isSome pre (insertDefaults decls ctx) k hk

/-- An integer parameter declaration with default value 1. -/
def intDeclD1 : ParameterDecl :=
  { parameter_type := DataType.int, default_value := some (JValue.num 1) }

/-- An integer parameter declaration without a default. -/
def intDecl : ParameterDecl := { parameter_type := DataType.int }

/-- Declarations for the C9 concrete run: a (default 1), b, c. -/
def c9decls : List (String × ParameterDecl) :=
  [("a", intDeclD1), ("b", intDecl), ("c", intDecl)]

/-- Configuration declaring the three parameters above. -/
def c9config : Configuration := { parameters := some c9decls, resources := [] }

/-- The C9 concrete input: b is a valid integer, c fails the int type
check. -/
def c9input : List (String × JValue) := [("b", JValue.num 2), ("c", JValue.str "x")]

/-- C9 witness: the prefix decomposition applied at a concrete
configuration with one defaulted parameter and a failing second input
entry. -/
theorem C9_witness :
    ∃ pre post, c9input = pre ++ post ∧
      (set_parameters emptyContext c9config (some c9input)).1
        = applyParams pre (insertDefaults c9decls emptyContext) ∧
      ((set_parameters emptyContext c9config (some c9input)).2 = .ok () → post = []) ∧
      (∀ p, p ∈ pre → entryOk c9decls p) ∧
      (∀ k, (List.lookup k (insertDefaults c9decls emptyContext).parameters).isSome = true →
        (List.lookup k
            ((set_parameters emptyContext c9config (some c9input)).1).parameters).isSome
          = true) :=
  C9_set_parameters_not_atomic emptyContext c9config c9decls c9input rfl



/-- The number of resources in a list carrying a given type. -/
def countType : List Resource → String → Nat
  | [], _ => 0
  | r :: rest, t => (if r.resource_type == t then 1 else 0) + countType rest t

theorem beq_comm_false {a b : String} (h : (a == b) = false) : (b == a) = false := by
  cases hx : b == a with
  | false => rfl
  | true =>
    rw [beq_iff_eq] at hx
    rw [hx, beq_self_eq_true] at h
    cases h

theorem setInsert_ne_nil (s : List String) (t : String) : setInsert s t ≠ [] := by
  unfold setInsert
  cases hc : s.contains t with
  | true =>
    rw [if_pos rfl]
    intro h
    rw [h] at hc
    cases hc
  | false =>
    rw [if_neg Bool.false_ne_true]
    intro h
    cases s with
    | nil => cases h
    | cons a l => cases h

theorem dupLoop_ne_nil_mono :
    ∀ (l : List Resource) (cnt : List (String × Nat)) (res : List String),
      res ≠ [] → dupLoop l cnt res ≠ []
  | [], _, res, h => h
  | r :: rest, cnt, res, h => by
    have hrw : dupLoop (r :: rest) cnt res
        = if (bumpEntry cnt r.resource_type).2 > 1 then
            dupLoop rest (bumpEntry cnt r.resource_type).1 (setInsert res r.resource_type)
          else dupLoop rest (bumpEntry cnt r.resource_type).1 res := rfl
    rw [hrw]
    by_cases hv : (bumpEntry cnt r.resource_type).2 > 1
    · rw [if_pos hv]
      exact dupLoop_ne_nil_mono rest _ _ (setInsert_ne_nil res r.resource_type)
    · rw [if_neg hv]
      exact dupLoop_ne_nil_mono rest _ res h

theorem bumpEntry_val :
    ∀ (cnt : List (String × Nat)) (t : String),
      (bumpEntry cnt t).2 = (List.lookup t cnt).getD 0 + 1
  | [], t => rfl
  | (k, c) :: rest, t => by
    cases hk : k == t with
    | true =>
      have e1 : bumpEntry ((k, c) :: rest) t = ((k, c + 1) :: rest, c + 1) := by
        unfold bumpEntry
        rw [if_pos hk]
      rw [beq_iff_eq] at hk
      rw [e1, List.lookup_cons]
      have hk2 : (t == k) = true := by rw [hk, beq_self_eq_true]
      simp only [hk2]
      rfl
    | false =>
      cases hbe : bumpEntry rest t with
      | mk m v =>
        have e1 : bumpEntry ((k, c) :: rest) t = ((k, c) :: m, v) := by
          unfold bumpEntry
          rw [if_neg (by rw [hk]; exact Bool.false_ne_true), hbe]
        rw [e1, List.lookup_cons]
        simp only [beq_comm_false hk]
        have ih := bumpEntry_val rest t
        rw [hbe] at ih
        exact ih

theorem bumpEntry_lookup_self :
    ∀ (cnt : List (String × Nat)) (t : String),
      List.lookup t (bumpEntry cnt t).1 = some ((bumpEntry cnt t).2)
  | [], t => by
    have e1 : bumpEntry ([] : List (String × Nat)) t = ([(t, 1)], 1) := rfl
    rw [e1, List.lookup_cons]
    simp [beq_self_eq_true]
  | (k, c) :: rest, t => by
    cases hk : k == t with
    | true =>
      have e1 : bumpEntry ((k, c) :: rest) t = ((k, c + 1) :: rest, c + 1) := by
        unfold bumpEntry
        rw [if_pos hk]
      rw [beq_iff_eq] at hk
      rw [e1, List.lookup_cons]
      have hk2 : (t == k) = true := by rw [hk, beq_self_eq_true]
      simp only [hk2]
    | false =>
      cases hbe : bumpEntry rest t with
      | mk m v =>
        have e1 : bumpEntry ((k, c) :: rest) t = ((k, c) :: m, v) := by
          unfold bumpEntry
          rw [if_neg (by rw [hk]; exact Bool.false_ne_true), hbe]
        rw [e1, List.lookup_cons]
        simp only [beq_comm_false hk]
        have ih := bumpEntry_lookup_self rest t
        rw [hbe] at ih
        exact ih

theorem bumpEntry_lookup_ne (t t' : String) (hne : (t' == t) = false) :
    ∀ (cnt : List (String × Nat)),
      List.lookup t' (bumpEntry cnt t).1 = List.lookup t' cnt
  | [] => by
    have e1 : bumpEntry ([] : List (String × Nat)) t = ([(t, 1)], 1) := rfl
    rw [e1, List.lookup_cons]
    simp only [hne]
  | (k, c) :: rest => by
    cases hk : k == t with
    | true =>
      have e1 : bumpEntry ((k, c) :: rest) t = ((k, c + 1) :: rest, c + 1) := by
        unfold bumpEntry
        rw [if_pos hk]
      rw [beq_iff_eq] at hk
      have hk2 : (t' == k) = false := by rw [hk]; exact hne
      rw [e1, List.lookup_cons, List.lookup_cons]
      simp only [hk2]
    | false =>
      cases hbe : bumpEntry rest t with
      | mk m v =>
        have e1 : bumpEntry ((k, c) :: rest) t = ((k, c) :: m, v) := by
          unfold bumpEntry
          rw [if_neg (by rw [hk]; exact Bool.false_ne_true), hbe]
        rw [e1, List.lookup_cons, List.lookup_cons]
        cases hx : t' == k with
        | true => rfl
        | false =>
          have ih := bumpEntry_lookup_ne t t' hne rest
          rw [hbe] at ih
          exact ih

theorem dupLoop_finds :
    ∀ (l : List Resource) (cnt : List (String × Nat)) (res : List String) (t : String),
      1 ≤ countType l t → 2 ≤ countType l t + (List.lookup t cnt).getD 0 →
      dupLoop l cnt res ≠ []
  | [], _, _, t, h1, _ => by cases h1
  | r :: rest, cnt, res, t, h1, h2 => by
    have hrw : dupLoop (r :: rest) cnt res
        = if (bumpEntry cnt r.resource_type).2 > 1 then
            dupLoop rest (bumpEntry cnt r.resource_type).1 (setInsert res r.resource_type)
          else dupLoop rest (bumpEntry cnt r.resource_type).1 res := rfl
    rw [hrw]
    by_cases hv : (bumpEntry cnt r.resource_type).2 > 1
    · rw [if_pos hv]
      exact dupLoop_ne_nil_mono rest _ _ (setInsert_ne_nil res r.resource_type)
    · rw [if_neg hv]
      have hval := bumpEntry_val cnt r.resource_type
      have hle : (List.lookup r.resource_type cnt).getD 0 = 0 := by omega
      cases hrt : r.resource_type == t with
      | true =>
        have hrt' : r.resource_type = t := by rw [← beq_iff_eq]; exact hrt
        have hc0 : countType (r :: rest) t
            = (if (r.resource_type == t) = true then 1 else 0) + countType rest t := rfl
        have hcount : countType (r :: rest) t = 1 + countType rest t := by
          rw [hc0, if_pos hrt]
        have hnew : List.lookup t (bumpEntry cnt r.resource_type).1
            = some ((bumpEntry cnt r.resource_type).2) := by
          rw [← hrt']
          exact bumpEntry_lookup_self cnt r.resource_type
        have hzero : (List.lookup t cnt).getD 0 = 0 := by rw [← hrt']; exact hle
        rw [hcount, hzero] at h2
        apply dupLoop_finds rest _ res t
        · omega
        · rw [hnew, hval, hle]
          show 2 ≤ countType rest t + (some (0 + 1)).getD 0
          have : (some (0 + 1)).getD 0 = 1 := rfl
          rw [this]
          omega
      | false =>
        have hc0 : countType (r :: rest) t
            = (if (r.resource_type == t) = true then 1 else 0) + countType rest t := rfl
        have hcount : countType (r :: rest) t = countType rest t := by
          rw [hc0, if_neg (by rw [hrt]; exact Bool.false_ne_true), Nat.zero_add]
        have hpres : List.lookup t (bumpEntry cnt r.resource_type).1 = List.lookup t cnt :=
          bumpEntry_lookup_ne r.resource_type t (beq_comm_false hrt) cnt
        rw [hcount] at h1 h2
        apply dupLoop_finds rest _ res t h1
        rw [hpres]
        exact h2

theorem find_duplicate_ne_nil (config : Configuration) (t : String)
    (h : 2 ≤ countType config.resources t) :
    find_duplicate_resource_types config ≠ [] := by
  unfold find_duplicate_resource_types
  cases hres : config.resources with
  | nil =>
    rw [hres] at h
    cases h
  | cons r rest =>
    rw [hres] at h
    have hne : List.isEmpty (r :: rest) = false := rfl
    rw [if_neg (by rw [hne]; exact Bool.false_ne_true)]
    apply dupLoop_finds (r :: rest) [] [] t
    · omega
    · show 2 ≤ countType (r :: rest) t + (none.getD 0)
      have : (none : Option Nat).getD 0 = 0 := rfl
      rw [this]
      omega

/-- The two-resource configuration from the spec scenario: both resources
have type Example/Widget. -/
def dupConfig : Configuration :=
  { parameters := none
    resources := [{ name := "a", resource_type := "Example/Widget" },
                  { name := "b", resource_type := "Example/Widget" }] }

/-- C5: invoke_export fails with the duplicate-types validation error,
whose message joins the duplicated types with commas, whenever some type
occurs at least twice — for every provider lookup and serialization, so
before any provider is invoked; on the concrete two-Example/Widget
configuration the message is exactly the one the spec states. -/
theorem C5_export_duplicate_types :
    (∀ (find_resource : String → Option DscResourceModel)
       (to_json : Option (List (String × JValue)) → String)
       (config : Configuration) (t : String),
      2 ≤ countType config.resources t →
      invoke_export find_resource to_json config
        = .error (.Validation ("Resource(s) "
            ++ String.intercalate "," (find_duplicate_resource_types config)
            ++ " specified multiple times"))) ∧
    invoke_export exFind exToJson dupConfig
      = .error (.Validation "Resource(s) Example/Widget specified multiple times") := by
  constructor
  · intro find_resource to_json config t h
    have hdup := find_duplicate_ne_nil config t h
    have hempty : (find_duplicate_resource_types config).isEmpty = false := by
      cases hfd : find_duplicate_resource_types config with
      | nil => exact absurd hfd hdup
      | cons a l => rfl
    have hrw : invoke_export find_resource to_json config
        = if (find_duplicate_resource_types config).isEmpty = false then
            .error (.Validation ("Resource(s) "
              ++ String.intercalate "," (find_duplicate_resource_types config)
              ++ " specified multiple times"))
          else
            invokeExportLoop find_resource to_json config.resources
              { parameters := none, resources := [] } >>= fun conf =>
              .ok { result := some conf } := rfl
    rw [hrw, if_pos hempty]
  · rfl

/-- C5 witness: the general statement applied at the concrete duplicate
configuration. -/
theorem C5_witness :
    invoke_export exFind exToJson dupConfig
      = .error (.Validation ("Resource(s) "
          ++ String.intercalate "," (find_duplicate_resource_types dupConfig)
          ++ " specified multiple times")) :=
  C5_export_duplicate_types.1 exFind exToJson dupConfig "Example/Widget" (by decide)



theorem addExportLoop_spec (type_name : String) :
    ∀ (instances : List JValue) (i : Nat) (conf conf' : Configuration),
      addExportLoop type_name instances i conf = .ok conf' →
      ∃ added, conf'.resources = conf.resources ++ added ∧
        added.length = instances.length ∧
        ∀ j, j < instances.length → ∃ inst props properties,
          instances.get? j = some inst ∧
          fromValueObject inst = .ok props ∧
          escape_property_values props = .ok properties ∧
          added.get? j = some { name := type_name ++ "-" ++ toString (i + j)
                                resource_type := type_name
                                properties := properties
                                depends_on := none }
  | [], i, conf, conf' => by
    intro h
    injection h with h'
    refine ⟨[], ?_, rfl, ?_⟩
    · rw [← h', List.append_nil]
    · intro j hj
      cases hj
  | inst :: rest, i, conf, conf' => by
    intro h
    have hrw : addExportLoop type_name (inst :: rest) i conf
        = fromValueObject inst >>= fun props =>
            escape_property_values props >>= fun properties =>
              addExportLoop type_name rest (i + 1)
                { conf with resources := conf.resources
                    ++ [{ name := type_name ++ "-" ++ toString i
                          resource_type := type_name
                          properties := properties
                          depends_on := none }] } := rfl
    rw [hrw] at h
    cases hfv : fromValueObject inst with
    | error e => rw [hfv, error_bind] at h; cases h
    | ok props =>
      rw [hfv, ok_bind] at h
      cases hesc : escape_property_values props with
      | error e => rw [hesc, error_bind] at h; cases h
      | ok properties =>
        rw [hesc, ok_bind] at h
        obtain ⟨added', hres, hlen, hall⟩ := addExportLoop_spec type_name rest (i + 1) _ conf' h
        refine ⟨{ name := type_name ++ "-" ++ toString i
                  resource_type := type_name
                  properties := properties
                  depends_on := none } :: added', ?_, ?_, ?_⟩
        · rw [hres]
          show (conf.resources ++ [_]) ++ added' = conf.resources ++ (_ :: added')
          rw [List.append_assoc]
          rfl
        · rw [List.length_cons, hlen, List.length_cons]
        · intro j hj
          cases j with
          | zero =>
            refine ⟨inst, props, properties, rfl, hfv, hesc, ?_⟩
            have : i + 0 = i := rfl
            rw [this]
            rfl
          | succ j' =>
            rw [List.length_cons] at hj
            obtain ⟨inst', props', properties', hg, hf, he, ha⟩ :=
              hall j' (Nat.lt_of_succ_lt_succ hj)
            refine ⟨inst', props', properties', hg, hf, he, ?_⟩
            have harr : i + 1 + j' = i + (j' + 1) := by omega
            rw [← harr]
            exact ha

/-- C6: each instance returned by the provider export is synthesized into
a resource appended to the result configuration with the original
resource's type, the name "<type>-<i>" for the 0-indexed instance
position, and properties equal to the escape-mode walk of the instance's
state. -/
theorem C6_export_synthesis :
    ∀ (resource provider : DscResourceModel) (conf conf' : Configuration)
      (input : String) (instances : List JValue),
      provider.exportFn input = .ok { actual_state := instances } →
      add_resource_export_results_to_configuration resource (some provider) conf input
        = .ok conf' →
      ∃ added, conf'.resources = conf.resources ++ added ∧
        added.length = instances.length ∧
        ∀ j, j < instances.length → ∃ inst props properties,
          instances.get? j = some inst ∧
          fromValueObject inst = .ok props ∧
          escape_property_values props = .ok properties ∧
          added.get? j = some { name := resource.type_name ++ "-" ++ toString j
                                resource_type := resource.type_name
                                properties := properties
                                depends_on := none } := by
  intro resource provider conf conf' input instances hexp h
  have hrw : add_resource_export_results_to_configuration resource (some provider) conf input
      = provider.exportFn input >>= fun export_result =>
          addExportLoop resource.type_name export_result.actual_state 0 conf := rfl
  rw [hrw, hexp, ok_bind] at h
  obtain ⟨added, hres, hlen, hall⟩ := addExportLoop_spec resource.type_name instances 0 conf conf' h
  refine ⟨added, hres, hlen, ?_⟩
  intro j hj
  obtain ⟨inst, props, properties, hg, hf, he, ha⟩ := hall j hj
  refine ⟨inst, props, properties, hg, hf, he, ?_⟩
  rw [show (0 : Nat) + j = j from Nat.zero_add j] at ha
  exact ha

/-- The provider used for the C6 concrete run: its export returns two
instances, one with a bracketed command string and one empty. -/
def c6provider : DscResourceModel :=
  { type_name := "Example/Widget"
    getFn := fun _ => .ok .null
    setFn := fun _ _ => .ok .null
    testFn := fun _ => .ok .null
    exportFn := fun _ => .ok { actual_state :=
      [JValue.obj [("cmd", JValue.str "[echo hello]")], JValue.obj []] } }

/-- C6 witness: the synthesis applied at the concrete provider above,
starting from the empty configuration. -/
theorem C6_witness :
    ∃ added,
      (Configuration.resources
        { parameters := none
          resources :=
            [{ name := "Example/Widget-0"
               resource_type := "Example/Widget"
               properties := some [("cmd", JValue.str "[[echo hello]")]
               depends_on := none },
             { name := "Example/Widget-1"
               resource_type := "Example/Widget"
               properties := some []
               depends_on := none }] })
        = Configuration.resources { parameters := none, resources := [] } ++ added ∧
      added.length
        = (List.length [JValue.obj [("cmd", JValue.str "[echo hello]")], JValue.obj []]) ∧
      ∀ j, j < (List.length [JValue.obj [("cmd", JValue.str "[echo hello]")], JValue.obj []]) →
        ∃ inst props properties,
          (List.get? [JValue.obj [("cmd", JValue.str "[echo hello]")], JValue.obj []] j)
            = some inst ∧
          fromValueObject inst = .ok props ∧
          escape_property_values props = .ok properties ∧
          added.get? j = some { name := "Example/Widget" ++ "-" ++ toString j
                                resource_type := "Example/Widget"
                                properties := properties
                                depends_on := none } :=
  C6_export_synthesis c6provider c6provider
    { parameters := none, resources := [] }
    { parameters := none
      resources :=
        [{ name := "Example/Widget-0"
           resource_type := "Example/Widget"
           properties := some [("cmd", JValue.str "[[echo hello]")]
           depends_on := none },
         { name := "Example/Widget-1"
           resource_type := "Example/Widget"
           properties := some []
           depends_on := none }] }
    ""
    [JValue.obj [("cmd", JValue.str "[echo hello]")], JValue.obj []]
    rfl rfl


end DSCv3
